import Mathlib

/-!
Verification development for the spreadsheet order parser
(`parsing.py`: `parse_item_catalog`, `normalize_name`, `parse_order_content`,
`parse_orders_and_items`).

Shallow embedding choices:
* A spreadsheet cell (one entry of the pandas DataFrame obtained by
  `pd.read_excel`) is `Cell`: a text cell, a numeric cell, or a missing cell
  (`NaN`).  Python `bool`/datetime cells are outside the model.
* Python `float` arithmetic is embedded as exact rationals `ℚ`.  The item
  catalog only ever stores non-`NaN` numbers (`pd.isna` is checked before a
  price is accepted), so the `math.isnan` test in the total computation can
  never fire and the `Option ℚ` model of optional prices is faithful.
* Python `str` values are Lean `String`s (sequences of Unicode code points,
  matching Python's code-point view of `str`: `len`, slicing and `re` column
  positions all count code points).
* `re`'s `\s` and `str.strip()` whitespace is modelled by `isPySpace`, covering
  the ASCII whitespace characters plus the two Unicode spaces (NBSP and the
  ideographic space) that occur in this kind of sheet; further exotic Unicode
  whitespace is not modelled.  `\d` is modelled as the ASCII digits.
* `uuid.uuid4()` is modelled by an identifier supply `gen : ℕ → String`
  consulted in program order; freshness of UUIDs becomes an injectivity /
  disjointness hypothesis on the supply.
* Exceptions (`ValueError`) are modelled by `Except`: a raised error produces
  no partial output, matching the Python semantics of an exception thrown out
  of the function.
-/

namespace HaoOrder

/-- A cell of the loaded DataFrame: text, number, or missing (`NaN`). -/
inductive Cell where
  | text (s : String)
  | num (q : ℚ)
  | empty
deriving DecidableEq, Repr

/-- The DataFrame as loaded by `pd.read_excel`: the number of columns and the
data rows (the Excel header row has already been consumed as column labels). -/
structure Sheet where
  ncols : ℕ
  rows : List (List Cell)
deriving DecidableEq, Repr

/-- Read a cell of a row; positions beyond the stored row are missing cells. -/
def rowCell (row : List Cell) (j : ℕ) : Cell :=
  (row.get? j).getD Cell.empty

/-- Whether a cell is missing (`pd.isna`). -/
def Cell.isNA : Cell → Bool
  | Cell.empty => true
  | _ => false

/-- Python `str()` of a cell value, as used by `.astype(str)`:
a missing cell (`NaN`) prints as `"nan"`.  The precise decimal rendering of a
numeric cell is irrelevant to the parser (cell strings are only compared with
the non-numeric marker strings), so `toString` on `ℚ` stands in for it. -/
def cellStr : Cell → String
  | Cell.text s => s
  | Cell.num q => toString q
  | Cell.empty => "nan"

/-- Whitespace for Python's `str.strip()` and `re`'s `\s` (see module header). -/
def isPySpace (c : Char) : Bool :=
  c = ' ' || c = '\t' || c = '\n' || c = '\r' || c = '\x0b' || c = '\x0c' ||
  c = ' ' || c = '　'

/-- Drop the whitespace on both ends of a character list (`str.strip()`). -/
def pyStripL (l : List Char) : List Char :=
  ((l.dropWhile isPySpace).reverse.dropWhile isPySpace).reverse

/-- Python `str.strip()`. -/
def pyStrip (s : String) : String :=
  String.mk (pyStripL s.data)

/-- Python `str.strip(chars)`: drop the listed characters on both ends. -/
def stripCharsL (set : List Char) (l : List Char) : List Char :=
  ((l.dropWhile (set.contains ·)).reverse.dropWhile (set.contains ·)).reverse

/-- Substring test, Python's `needle in hay`. -/
def isSubL (needle hay : List Char) : Bool :=
  (List.range (hay.length + 1)).any (fun i => needle.isPrefixOf (hay.drop i))

/-- Substring test on strings. -/
def isSub (needle hay : String) : Bool :=
  isSubL needle.data hay.data

/-- Python `str.startswith`. -/
def startsW (pat s : String) : Bool :=
  pat.data.isPrefixOf s.data

/-- Python string comparison `a < b`: lexicographic on code points. -/
def lexLt : List Char → List Char → Bool
  | [], [] => false
  | [], _ :: _ => true
  | _ :: _, [] => false
  | a :: as, b :: bs => a < b || (a = b && lexLt as bs)

/-- Worker for `collapseWs`: when `skip` is set, the previous character was
whitespace already replaced by a single space, so further whitespace of the
same run is dropped. -/
def collapseGo (skip : Bool) : List Char → List Char
  | [] => []
  | c :: rest =>
    if isPySpace c then
      if skip then collapseGo true rest
      else ' ' :: collapseGo true rest
    else c :: collapseGo false rest

/-- Collapse each maximal whitespace run to a single space
(the effect of `re.sub(r"\s+", " ", s)`). -/
def collapseWs (l : List Char) : List Char :=
  collapseGo false l

/-- Source `normalize_name`: strip, then collapse internal whitespace runs. -/
def normalize_name (s : String) : String :=
  String.mk (collapseWs (pyStripL s.data))

/-- Splitting of the content cell, `re.split(r"[，,]\s*", text)`: each comma
(full-width or ASCII) together with the following whitespace run is a
separator; the pieces between separators are returned (empty pieces kept). -/
def splitGo (skip : Bool) (acc : List Char) : List Char → List (List Char)
  | [] => [acc.reverse]
  | c :: rest =>
    if skip && isPySpace c then splitGo true acc rest
    else if c = '，' || c = ',' then acc.reverse :: splitGo true [] rest
    else splitGo false (c :: acc) rest

/-- Split a content string into raw segments. -/
def splitParts (s : String) : List String :=
  (splitGo false [] s.data).map String.mk

/-- Numeric value of a digit run (`int` of the matched digits). -/
def digitsVal (ds : List Char) : ℕ :=
  ds.foldl (fun a c => a * 10 + (c.toNat - 48)) 0

/-- Attempted match of `x\s*(\d+)\s*$` starting at position `i`: succeeds when
position `i` holds the letter `x` and the rest of the string is whitespace,
then one or more digits, then whitespace up to the end; yields the digits'
value. -/
def qtyMatchAt (p : List Char) (i : ℕ) : Option ℕ :=
  if p.get? i = some 'x' then
    let s := (p.drop (i + 1)).dropWhile isPySpace
    let ds := s.takeWhile Char.isDigit
    if ds ≠ [] && (s.drop ds.length).all isPySpace then some (digitsVal ds)
    else none
  else none

/-- Embedding of `re.search(r"x\s*(\d+)\s*$", p)`: the leftmost position where
the end-anchored quantity pattern matches, with the quantity value. -/
def findQty (p : List Char) : Option (ℕ × ℕ) :=
  match (List.range p.length).find? (fun i => (qtyMatchAt p i).isSome) with
  | none => none
  | some i =>
    match qtyMatchAt p i with
    | some q => some (i, q)
    | none => none

/-! Configuration strings (the default keyword arguments of the source). -/

def summary_marker : String := "商品汇总"
def product_header : String := "商品"
def total_marker : String := "总计"
def orders_header_marker : String := "序号"
def totalPriceMarker : String := "总价"
def defaultDeliveryPfxs : List String := ["选择配送"]

/-! The price resolver (lines 132-144 of `parse_order_content`). -/

/-- An item as produced by `parse_order_content`:
the dict `{name, quantity, price}`.  Quantity is a Python `int`, hence `ℤ`. -/
structure SegItem where
  name : String
  quantity : ℤ
  price : Option ℚ
deriving DecidableEq, Repr

/-- Lookup in a Python dict modelled as an association list with unique keys
(`d.get(k)` / `d[k]`). -/
def lookupQ (d : List (String × ℚ)) (k : String) : Option ℚ :=
  (d.find? (fun kv => kv.1 = k)).map (fun kv => kv.2)

/-- Python dict assignment `d[k] = v`: overwriting keeps the key's original
position, a new key goes to the end. -/
def dictUpdate (d : List (String × ℚ)) (k : String) (v : ℚ) : List (String × ℚ) :=
  if d.any (fun kv => kv.1 = k) then
    d.map (fun kv => if kv.1 = k then (k, v) else kv)
  else d ++ [(k, v)]

/-- The dict comprehension `{normalize_name(k): v for k, v in price_map.items()}`. -/
def normPriceMapOf (pm : List (String × ℚ)) : List (String × ℚ) :=
  pm.foldl (fun d kv => dictUpdate d (normalize_name kv.1) kv.2) []

/-- Comparison of the tuples `(len(k), k)` used to sort the fallback
candidates: Python tuple order, length first, then code-point order. -/
def keyLtB (a b : String) : Bool :=
  a.length < b.length || (a.length = b.length && lexLt a.data b.data)

/-- Greatest element of `x :: xs` under the strict comparison `lt`, keeping
the earlier element when neither compares less. -/
def foldMaxBy (lt : String → String → Bool) (x : String) (xs : List String) : String :=
  xs.foldl (fun b k => if lt b k then k else b) x

/-- First element of `sorted(candidates, reverse=True)`: fold keeping the
greatest tuple (the earliest one on exactly equal tuples, as the sort is
stable; equal tuples mean equal strings here since dict keys are unique). -/
def pickBest (x : String) (xs : List String) : String :=
  foldMaxBy keyLtB x xs

/-- The candidate keys of the fallback substring match, in dict iteration
order: keys that are a substring of the name or contain it. -/
def candKeys (npm : List (String × ℚ)) (name : String) : List String :=
  (npm.map (fun kv => kv.1)).filter (fun k => isSub k name || isSub name k)

/-- The warning recorded when no price match exists. -/
def missMsg (name : String) : String :=
  "Missing price match for item: \x27" ++ name ++ "\x27"

/-- Price resolution for one parsed item name (lines 132-144): exact lookup in
the normalized price map, else longest-substring fallback snapping the name to
the canonical catalog key, else a missing-price warning.  Returns the final
name, the price, and the optional warning. -/
def resolvePrice (npm : List (String × ℚ)) (name : String) :
    String × Option ℚ × Option String :=
  match lookupQ npm name with
  | some p => (name, some p, none)
  | none =>
    match candKeys npm name with
    | [] => (name, none, some (missMsg name))
    | c :: rest =>
      let canonical := pickBest c rest
      (canonical, lookupQ npm canonical, none)

/-! The content segmenter (`parse_order_content`). -/

/-- The warning recorded for a segment without a trailing quantity. -/
def skipMsg (p : String) : String :=
  "Skipped segment without trailing quantity \x27xN\x27: " ++ p

/-- Accumulator of the segment loop. -/
structure SegState where
  wantsDelivery : Bool
  items : List SegItem
  warnings : List String
deriving DecidableEq, Repr

/-- Cleaning of one raw segment: `raw_part.strip().strip(" ，,")`. -/
def stripSeg (raw : String) : String :=
  String.mk (stripCharsL [' ', '，', ','] (pyStripL raw.data))

/-- Whether a cleaned segment is kept: the loop discards empty segments and
segments containing the total-price marker (`if not p or "总价" in p`). -/
def segKeep (p : String) : Bool :=
  !(p = "" || isSub totalPriceMarker p)

/-- Whether a cleaned segment encodes a delivery choice:
`any(p.startswith(prefix) for prefix in delivery_prefixes)`. -/
def isDeliv (pfxs : List String) (p : String) : Bool :=
  pfxs.any (fun d => startsW d p)

/-- The item-producing tail of the segment loop (lines 123-146): require a
trailing quantity, else warn; then resolve the price and append the item.
Acts on the `(items, warnings)` accumulators. -/
def itemStepAcc (npm : List (String × ℚ)) (acc : List SegItem × List String)
    (p : String) : List SegItem × List String :=
  match findQty p.data with
  | none => (acc.1, acc.2 ++ [skipMsg p])
  | some (i, qty) =>
    let nm := normalize_name (String.mk (p.data.take i))
    let r := resolvePrice npm nm
    (acc.1 ++ [⟨r.1, (qty : ℤ), r.2.1⟩], acc.2 ++ r.2.2.toList)

/-- One iteration of the segment loop on the already-cleaned segment `p`:
skip empty or total-price segments, flag delivery segments, then run the
item-producing tail. -/
def processSegCore (pfxs : List String) (npm : List (String × ℚ))
    (st : SegState) (p : String) : SegState :=
  if !(segKeep p) then st
  else if isDeliv pfxs p then
    { st with wantsDelivery := true }
  else
    let r := itemStepAcc npm (st.items, st.warnings) p
    ⟨st.wantsDelivery, r.1, r.2⟩

/-- Python `str(content) if content is not None else ""`. -/
def textOf (content : Option String) : String :=
  match content with
  | some s => s
  | none => ""

/-- Source `parse_order_content`: segment one content cell, producing the
delivery flag, the item list and the warning list.  `content = none` models
the Python `None` argument (mapped to the empty string by the source).
The function is total: no input makes the source raise. -/
def parse_order_content (pfxs : List String) (content : Option String)
    (price_map : List (String × ℚ)) : Bool × List SegItem × List String :=
  let npm := normPriceMapOf price_map
  let st := (splitParts (textOf content)).foldl
    (fun st raw => processSegCore pfxs npm st (stripSeg raw))
    ⟨false, [], []⟩
  (st.wantsDelivery, st.items, st.warnings)

/-! The catalog extractor (`parse_item_catalog`). -/

/-- One catalog entry (a row of `items_catalog_df`). -/
structure CatEntry where
  item_name : String
  unit_price : ℚ
  summary_qty : Option ℚ
  summary_amount : Option ℚ
deriving DecidableEq, Repr

/-- A `digitpart` continuation: digits with single underscores allowed
strictly between digits (PEP 515).  Called after an initial digit was
consumed; returns the further digits (underscores removed) and the
unconsumed rest. -/
def digitPartGo : List Char → List Char × List Char
  | [] => ([], [])
  | '_' :: c :: rest =>
    if c.isDigit then
      let p := digitPartGo rest
      (c :: p.1, p.2)
    else ([], '_' :: c :: rest)
  | '_' :: [] => ([], ['_'])
  | c :: rest =>
    if c.isDigit then
      let p := digitPartGo rest
      (c :: p.1, p.2)
    else ([], c :: rest)

/-- A `digitpart` of the Python float grammar: one or more digits with
single underscores between digits.  Returns the digits and the rest. -/
def digitPart (l : List Char) : Option (List Char × List Char) :=
  match l with
  | c :: rest =>
    if c.isDigit then
      let p := digitPartGo rest
      some (c :: p.1, p.2)
    else none
  | [] => none

/-- The optional exponent tail `([eE][+-]?digitpart)?` applied to a parsed
mantissa; fails unless it consumes the whole rest. -/
def applyExp (base : ℚ) (rest : List Char) : Option ℚ :=
  match rest with
  | [] => some base
  | e :: r =>
    if e = 'e' || e = 'E' then
      let sr : ℤ × List Char := match r with
        | '+' :: r2 => (1, r2)
        | '-' :: r2 => (-1, r2)
        | r2 => (1, r2)
      match digitPart sr.2 with
      | some (ds, rr) =>
        if rr = [] then some (base * (10 : ℚ) ^ (sr.1 * (digitsVal ds : ℤ))) else none
      | none => none
    else none

/-- The numeric part of the Python float grammar after the sign:
`digitpart [. digitpart?] | . digitpart`, then an optional exponent. -/
def parsePyNumber (cs : List Char) : Option ℚ :=
  match digitPart cs with
  | some (ip, r1) =>
    match r1 with
    | '.' :: r2 =>
      match digitPart r2 with
      | some (fp, r3) =>
        applyExp ((digitsVal ip : ℚ) + (digitsVal fp : ℚ) / (10 ^ fp.length)) r3
      | none => applyExp (digitsVal ip : ℚ) r2
    | _ => applyExp (digitsVal ip : ℚ) r1
  | none =>
    match cs with
    | '.' :: r2 =>
      match digitPart r2 with
      | some (fp, r3) => applyExp ((digitsVal fp : ℚ) / (10 ^ fp.length)) r3
      | none => none
    | _ => none

/-- Python `float(str)`: whitespace-stripped, an optional sign, then either
`inf`/`infinity`/`nan` (case-insensitive) or a decimal number with optional
fraction, exponent and PEP 515 underscores.  The value is computed exactly
in `ℚ` (the IEEE rounding of the true decimal value is not modelled); the
IEEE specials `inf`/`nan`, which `float()` converts successfully, have no
`ℚ` representative and are mapped to a stand-in `0` — only the success of
the conversion, never this value, matters to any claim (the converted value
lands in the unused summary columns of the catalog).  As declared in the
module header, digits are the ASCII digits (exotic Unicode decimal digits
are out of the model). -/
def parsePyFloat (s : String) : Option ℚ :=
  let cs := pyStripL s.data
  let sgn : ℚ := match cs with
    | '-' :: _ => -1
    | _ => 1
  let cs1 : List Char := match cs with
    | '+' :: r => r
    | '-' :: r => r
    | r => r
  let low := cs1.map Char.toLower
  if low = "inf".data || low = "infinity".data || low = "nan".data then some 0
  else (parsePyNumber cs1).map (fun q => sgn * q)

/-- Python `float(cell)`.  A text cell converts only if it reads as a decimal
number, otherwise `ValueError`.  The missing case never arises in the source
(every call site is guarded by `pd.notna`). -/
def floatOfCell : Cell → Except Unit ℚ
  | Cell.num q => Except.ok q
  | Cell.text s =>
    match parsePyFloat s with
    | some q => Except.ok q
    | none => Except.error ()
  | Cell.empty => Except.error ()

/-- The optional numeric column of a catalog row:
`float(df.at[i, colj]) if colj is not None and pd.notna(df.at[i, colj]) else None`. -/
def optCol (sh : Sheet) (row : List Cell) (j : ℕ) : Except Unit (Option ℚ) :=
  if j < sh.ncols then
    match rowCell row j with
    | Cell.empty => Except.ok none
    | c => (floatOfCell c).map some
  else Except.ok none

/-- Whether a cell is a string whose stripped form equals `m`. -/
def stripTextEq (c : Cell) (m : String) : Bool :=
  match c with
  | Cell.text s => pyStrip s = m
  | _ => false

/-- Whether a cell is a string naming one of the header/marker rows
(`{product_header, summary_marker, total_marker}`). -/
def isHeaderCell (c : Cell) : Bool :=
  match c with
  | Cell.text s => [product_header, summary_marker, total_marker].contains (pyStrip s)
  | _ => false

/-- The catalog row loop (lines 46-68): walk the rows after the summary
marker, stop at the total marker, skip header rows, and accept rows with a
non-empty string name and a numeric unit price; reading a non-numeric text
value in the quantity/amount columns raises (`float` conversion). -/
def collectCat (sh : Sheet) : List (List Cell) → Except Unit (List CatEntry)
  | [] => Except.ok []
  | row :: rest =>
    if stripTextEq (rowCell row 0) total_marker then Except.ok []
    else if isHeaderCell (rowCell row 0) then collectCat sh rest
    else
      match rowCell row 0 with
      | Cell.text s =>
        if pyStrip s ≠ "" then
          match rowCell row 1 with
          | Cell.num q =>
            match optCol sh row 2, optCol sh row 3, collectCat sh rest with
            | Except.ok sq, Except.ok sa, Except.ok tail =>
              Except.ok (⟨pyStrip s, q, sq, sa⟩ :: tail)
            | _, _, _ => Except.error ()
          | _ => collectCat sh rest
        else collectCat sh rest
      | _ => collectCat sh rest

/-- Deduplication by item name keeping the last occurrence, at its original
position (`drop_duplicates(subset=["item_name"], keep="last")`). -/
def dedupKeepLast : List CatEntry → List CatEntry
  | [] => []
  | e :: rest =>
    if rest.any (fun e2 => e2.item_name = e.item_name) then dedupKeepLast rest
    else e :: dedupKeepLast rest

/-- First row whose first cell, as a string, strips to the summary marker. -/
def summaryIdxOf (sh : Sheet) : Option ℕ :=
  sh.rows.findIdx? (fun row => pyStrip (cellStr (rowCell row 0)) = summary_marker)

/-- First row whose first cell, as a string, strips to the orders header. -/
def headerIdxOf (sh : Sheet) : Option ℕ :=
  sh.rows.findIdx? (fun row => pyStrip (cellStr (rowCell row 0)) = orders_header_marker)

/-- The fatal errors the import can raise: the `ValueError`s of the parsing
phase, and the `KeyError`s of the final checklist join — with zero order
rows `orders_df` is an empty DataFrame without columns, so the column
selection `orders_df[[...]]` raises; with orders but zero items `items_df`
has no columns, so `items_df.merge(..., on="orderId")` raises. -/
inductive PError where
  | tooFewColsCatalog
  | summaryMarkerNotFound
  | floatConvError
  | emptyCatalog
  | tooFewColsOrders
  | ordersHeaderNotFound
  | summaryNotFoundOrders
  | ordersColumnsKeyError
  | itemsMergeKeyError
deriving DecidableEq, Repr

/-- Source `parse_item_catalog`: the catalog entries of the summary section
together with the `price_map` dict. -/
def parse_item_catalog (sh : Sheet) :
    Except PError (List CatEntry × List (String × ℚ)) :=
  if sh.ncols < 2 then Except.error PError.tooFewColsCatalog
  else
    match summaryIdxOf sh with
    | none => Except.error PError.summaryMarkerNotFound
    | some s =>
      match collectCat sh (sh.rows.drop (s + 1)) with
      | Except.error _ => Except.error PError.floatConvError
      | Except.ok entries =>
        if entries = [] then Except.error PError.emptyCatalog
        else
          let cat := dedupKeepLast entries
          Except.ok (cat, cat.map (fun e => (e.item_name, e.unit_price)))

/-! The order assembler (`parse_orders_and_items`). -/

/-- A row of `orders_df`. -/
structure OrderRec where
  orderId : String
  customer : String
  totalDollar : Option ℚ
  isPaid : Bool
  wantsDelivery : Bool
  isFulfilled : Bool
deriving DecidableEq, Repr

/-- A row of `items_df`. -/
structure ItemRec where
  itemId : String
  orderId : String
  name : String
  quantity : ℤ
  price : Option ℚ
  isChecked : Bool
deriving DecidableEq, Repr

/-- A row of `issues_df`. -/
structure IssueRec where
  orderId : String
  customer : String
  warning : String
  content_sample : String
deriving DecidableEq, Repr

/-- A row of `checklist_df` (lines 267-285): an item row joined with its
order's attributes, in the source's column order. -/
structure ChecklistRow where
  orderId : String
  customer : String
  wantsDelivery : Bool
  isPaid : Bool
  isFulfilled : Bool
  totalDollar : Option ℚ
  itemId : String
  name : String
  quantity : ℤ
  price : Option ℚ
  isChecked : Bool
deriving DecidableEq, Repr

/-- The `items_df.merge(orders_df[...], on="orderId", how="left")` join: each
item row paired with every order row carrying the same `orderId`, in order.
The left-join arm that pads an unmatched item with `NaN` attributes cannot
arise (every item's `orderId` is its parent order's id, which is in
`orders`), so it is not represented. -/
def checklistOf (orders : List OrderRec) (items : List ItemRec) :
    List ChecklistRow :=
  items.flatMap (fun it =>
    (orders.filter (fun o => o.orderId = it.orderId)).map (fun o =>
      ⟨it.orderId, o.customer, o.wantsDelivery, o.isPaid, o.isFulfilled,
       o.totalDollar, it.itemId, it.name, it.quantity, it.price, it.isChecked⟩))

/-- The output collections of `parse_orders_and_items`: the four record
collections and the denormalized checklist view. -/
structure ParseOut where
  orders : List OrderRec
  items : List ItemRec
  issues : List IssueRec
  catalog : List CatEntry
  checklist : List ChecklistRow
deriving DecidableEq, Repr

/-- Round-half-to-even to an integer (Python `round` on an exact value). -/
def roundHalfEven (x : ℚ) : ℤ :=
  let f := x.floor
  let r := x - (f : ℚ)
  if r < 1 / 2 then f
  else if 1 / 2 < r then f + 1
  else if f % 2 = 0 then f else f + 1

/-- Python `round(x, 2)`, on the exact-rational model of float arithmetic. -/
def round2 (x : ℚ) : ℚ :=
  ((roundHalfEven (x * 100) : ℚ)) / 100

/-- One step of the total loop (lines 223-229): a missing (or `NaN`, which
cannot occur, see the module header) price poisons the total, a known price
contributes `quantity * price`. -/
def totalStep (acc : ℚ × Bool) (it : SegItem) : ℚ × Bool :=
  match it.price with
  | none => (acc.1, true)
  | some p => (acc.1 + (it.quantity : ℚ) * p, acc.2)

/-- The `totalDollar` of an order: `None` when some price is missing, else
the rounded accumulated total. -/
def computeTotalDollar (items : List SegItem) : Option ℚ :=
  let r := items.foldl totalStep (0, false)
  if r.2 then none else some (round2 r.1)

/-- Python `s[:k]` (by code points). -/
def strTake (s : String) (k : ℕ) : String :=
  String.mk (s.data.take k)

/-- Item records of one order: each parsed item gets the next fresh id from
the supply (`str(uuid.uuid4())` per item, in order). -/
def attachIds (gen : ℕ → String) (oid : String) : ℕ → List SegItem → List ItemRec
  | _, [] => []
  | n, it :: rest =>
    ⟨gen n, oid, it.name, it.quantity, it.price, false⟩ :: attachIds gen oid (n + 1) rest

/-- Result of processing one qualifying order row, with the next free index
of the identifier supply. -/
structure RowOut where
  order : OrderRec
  items : List ItemRec
  issues : List IssueRec
  next : ℕ
deriving Repr

/-- The body of the per-order loop (lines 215-260): fresh order id, segment
the content cell, compute the total, attach item ids, and record the
warnings plus a "No parsed items" issue for empty orders. -/
def processOrderRow (pm : List (String × ℚ)) (gen : ℕ → String) (n : ℕ)
    (row : List Cell) : RowOut :=
  let orderId := gen n
  let customer := pyStrip (cellStr (rowCell row 1))
  let content := cellStr (rowCell row 2)
  let r := parse_order_content defaultDeliveryPfxs (some content) pm
  let order : OrderRec :=
    ⟨orderId, customer, computeTotalDollar r.2.1, false, r.1, false⟩
  let itemRecs := attachIds gen orderId (n + 1) r.2.1
  let issues :=
    r.2.2.map (fun w => (⟨orderId, customer, w, strTake content 150⟩ : IssueRec)) ++
    (if r.2.1 = [] then
      [(⟨orderId, customer, "No parsed items", strTake content 150⟩ : IssueRec)]
    else [])
  ⟨order, itemRecs, issues, n + 1 + r.2.1.length⟩

/-- The per-order loop over the qualifying rows, threading the id supply. -/
def processRows (pm : List (String × ℚ)) (gen : ℕ → String) :
    ℕ → List (List Cell) → List (OrderRec × List ItemRec × List IssueRec)
  | _, [] => []
  | n, row :: rest =>
    let r := processOrderRow pm gen n row
    (r.order, r.items, r.issues) :: processRows pm gen r.next rest

/-- The qualifying order rows: the rows strictly between the orders header
row and the summary marker row whose customer and content cells are present. -/
def ordersSpanRows (sh : Sheet) (h s : ℕ) : List (List Cell) :=
  ((sh.rows.drop (h + 1)).take (s - (h + 1))).filter
    (fun row => !(rowCell row 1).isNA && !(rowCell row 2).isNA)

/-- The final assembly (lines 262-287): build the output DataFrames and the
checklist join.  The join raises `KeyError` when there are no order rows
(`orders_df[[...]]` on a column-less empty frame) and, otherwise, when
there are no item rows (`merge` on the missing `orderId` column of an empty
`items_df`). -/
def assembleOutputs (cat : List CatEntry)
    (results : List (OrderRec × List ItemRec × List IssueRec)) :
    Except PError ParseOut :=
  if results.map (fun r => r.1) = [] then Except.error PError.ordersColumnsKeyError
  else if results.flatMap (fun r => r.2.1) = [] then
    Except.error PError.itemsMergeKeyError
  else
    Except.ok
      ⟨results.map (fun r => r.1),
       results.flatMap (fun r => r.2.1),
       results.flatMap (fun r => r.2.2),
       cat,
       checklistOf (results.map (fun r => r.1)) (results.flatMap (fun r => r.2.1))⟩

/-- Source `parse_orders_and_items`: the end-to-end import.  `gen` is the
`uuid4` supply (see the module header). -/
def parse_orders_and_items (sh : Sheet) (gen : ℕ → String) :
    Except PError ParseOut :=
  match parse_item_catalog sh with
  | Except.error e => Except.error e
  | Except.ok (cat, pm) =>
    if sh.ncols < 3 then Except.error PError.tooFewColsOrders
    else
      match headerIdxOf sh with
      | none => Except.error PError.ordersHeaderNotFound
      | some h =>
        match summaryIdxOf sh with
        | none => Except.error PError.summaryNotFoundOrders
        | some s =>
          assembleOutputs cat (processRows pm gen 0 (ordersSpanRows sh h s))

/-- The per-row results underlying the import (empty when the import fails
before reaching the order loop); a successful `parse_orders_and_items`
flattens exactly this list. -/
def rowResultsOf (sh : Sheet) (gen : ℕ → String) :
    List (OrderRec × List ItemRec × List IssueRec) :=
  match parse_item_catalog sh with
  | Except.error _ => []
  | Except.ok (_, pm) =>
    if sh.ncols < 3 then []
    else
      match headerIdxOf sh, summaryIdxOf sh with
      | some h, some s => processRows pm gen 0 (ordersSpanRows sh h s)
      | _, _ => []

/-! Support definitions used to state the claims. -/

/-- Whether an `Except` computation raised. -/
def isErr {ε α : Type} (e : Except ε α) : Bool :=
  match e with
  | Except.error _ => true
  | Except.ok _ => false

instance {ε α : Type} [DecidableEq ε] [DecidableEq α] : DecidableEq (Except ε α) :=
  fun a b =>
    match a, b with
    | Except.ok x, Except.ok y =>
      if h : x = y then isTrue (by rw [h]) else isFalse (by intro hh; cases hh; exact h rfl)
    | Except.error x, Except.error y =>
      if h : x = y then isTrue (by rw [h]) else isFalse (by intro hh; cases hh; exact h rfl)
    | Except.ok _, Except.error _ => isFalse (by intro hh; cases hh)
    | Except.error _, Except.ok _ => isFalse (by intro hh; cases hh)

/-- The span of candidate catalog rows: everything up to (excluding) the
first row whose first cell strips to the total marker. -/
def takeUntilTotal (l : List (List Cell)) : List (List Cell) :=
  l.takeWhile (fun row => !(stripTextEq (rowCell row 0) total_marker))

/-- Whether a cell holds a number (`isinstance(price, (int, float))` and not
`NaN`). -/
def isNumCell : Cell → Bool
  | Cell.num _ => true
  | _ => false

/-- The acceptance condition for a catalog row: a non-empty string first cell
that is not a header/marker string, and a numeric second cell. -/
def acceptsRowB (row : List Cell) : Bool :=
  !(isHeaderCell (rowCell row 0)) &&
  (match rowCell row 0 with
   | Cell.text s => pyStrip s ≠ ""
   | _ => false) &&
  isNumCell (rowCell row 1)

/-- Whether the optional column `j` of a row makes `float(...)` raise:
the column exists, the cell is present, and conversion fails. -/
def badColB (sh : Sheet) (row : List Cell) (j : ℕ) : Bool :=
  j < sh.ncols && !(rowCell row j).isNA && isErr (floatOfCell (rowCell row j))

/-- A catalog row on which the extraction raises `ValueError` from `float`:
it passes the acceptance checks but its quantity or amount cell is
unconvertible text. -/
def crashRowB (sh : Sheet) (row : List Cell) : Bool :=
  acceptsRowB row && (badColB sh row 2 || badColB sh row 3)

/-- Value of a successful optional-column read (the raising branch is
unreachable whenever the surrounding extraction succeeded). -/
def okOrNone (e : Except Unit (Option ℚ)) : Option ℚ :=
  match e with
  | Except.ok v => v
  | Except.error _ => none

/-- The catalog entry a row yields, when accepted. -/
def entryOfRow (sh : Sheet) (row : List Cell) : Option CatEntry :=
  match rowCell row 0, rowCell row 1 with
  | Cell.text s, Cell.num q =>
    if acceptsRowB row then
      some ⟨pyStrip s, q, okOrNone (optCol sh row 2), okOrNone (optCol sh row 3)⟩
    else none
  | _, _ => none

/-- The fatal-error condition exactly as claim C3 states it: summary marker
absent, orders header absent, too few columns, or a located summary followed
by zero valid catalog rows. -/
def claimCondB (sh : Sheet) : Bool :=
  decide (sh.ncols < 3) || (summaryIdxOf sh).isNone || (headerIdxOf sh).isNone ||
  (match summaryIdxOf sh with
   | none => false
   | some s =>
     (takeUntilTotal (sh.rows.drop (s + 1))).all (fun r => !(acceptsRowB r)))

/-- Whether every qualifying order row (vacuously, when there is none)
parses to zero items — exactly the situation in which the checklist join
raises `KeyError` (no order rows, or order rows but no item rows). -/
def allRowsNoItems (pm : List (String × ℚ)) (rows : List (List Cell)) : Bool :=
  rows.all (fun row =>
    (parse_order_content defaultDeliveryPfxs
      (some (cellStr (rowCell row 2))) pm).2.1 = [])

/-- The amended fatal-error condition: additionally, a catalog row passing
the acceptance checks whose quantity/amount cell is unconvertible text, and
the checklist join's `KeyError` on a structurally well-formed sheet with
zero qualifying order rows or zero parsed items in total. -/
def amendedCondB (sh : Sheet) : Bool :=
  claimCondB sh ||
  (match summaryIdxOf sh with
   | none => false
   | some s =>
     (takeUntilTotal (sh.rows.drop (s + 1))).any (fun r => crashRowB sh r)) ||
  (match parse_item_catalog sh, headerIdxOf sh, summaryIdxOf sh with
   | Except.ok (_, pm), some h, some s => allRowsNoItems pm (ordersSpanRows sh h s)
   | _, _, _ => false)

/-- Modelled from the spec (and claim C2): the fallback tie-break the spec
asserts — among candidates of maximal length, the one the underlying
iteration yields first (a longer candidate replaces the current best only
strictly). -/
def pickFirstMaxLen (x : String) (xs : List String) : String :=
  foldMaxBy (fun b k => b.length < k.length) x xs

/-- Modelled from the spec (claim C2 as stated): price resolution with the
iteration-first tie-break. -/
def resolvePriceSpecIterFirst (npm : List (String × ℚ)) (name : String) :
    String × Option ℚ × Option String :=
  match lookupQ npm name with
  | some p => (name, some p, none)
  | none =>
    match candKeys npm name with
    | [] => (name, none, some (missMsg name))
    | c :: rest =>
      let canonical := pickFirstMaxLen c rest
      (canonical, lookupQ npm canonical, none)

/-- Greatest length among a list of keys. -/
def maxLenOf (l : List String) : ℕ :=
  l.foldl (fun m k => max m k.length) 0

/-- Lexicographically greatest string of `x :: xs` (code-point order). -/
def lexMaxStr (x : String) (xs : List String) : String :=
  foldMaxBy (fun b k => lexLt b.data k.data) x xs

/-- The amended claim C2's resolver, written declaratively: exact lookup
first; on a miss, among the substring candidates keep those of maximal
length and choose the lexicographically greatest; else warn. -/
def resolvePriceSpecAmended (npm : List (String × ℚ)) (name : String) :
    String × Option ℚ × Option String :=
  match lookupQ npm name with
  | some p => (name, some p, none)
  | none =>
    let cs := candKeys npm name
    match cs.filter (fun k => k.length = maxLenOf cs) with
    | [] => (name, none, some (missMsg name))
    | m :: ms => (lexMaxStr m ms, lookupQ npm (lexMaxStr m ms), none)

/-- Sum of `quantity * price` over emitted item records (missing prices as 0;
only applied when every price is known). -/
def sumItems (its : List ItemRec) : ℚ :=
  (its.map (fun it => (it.quantity : ℚ) * (it.price.getD 0))).sum

/-- An order record without its generated identifier. -/
def eraseOrder (o : OrderRec) : String × Option ℚ × Bool × Bool × Bool :=
  (o.customer, o.totalDollar, o.isPaid, o.wantsDelivery, o.isFulfilled)

/-- An item record without its generated identifiers. -/
def eraseItem (it : ItemRec) : String × ℤ × Option ℚ × Bool :=
  (it.name, it.quantity, it.price, it.isChecked)

/-- An issue record without the generated order identifier it references. -/
def eraseIssue (i : IssueRec) : String × String × String :=
  (i.customer, i.warning, i.content_sample)

/-! Concrete inputs used by witnesses and counterexamples. -/

/-- An identifier supply (stand-in for a run of `uuid.uuid4()`). -/
def genA : ℕ → String := fun n => "a" ++ Nat.repr n

/-- A second, disjoint identifier supply. -/
def genB : ℕ → String := fun n => "b" ++ Nat.repr n

/-- A small well-formed sheet: one order (`A x2`), a one-item catalog. -/
def shGood : Sheet :=
  ⟨3, [[Cell.text "序号", Cell.text "姓名", Cell.text "内容"],
       [Cell.text "1", Cell.text "Alice", Cell.text "A x2"],
       [Cell.text "商品汇总", Cell.empty, Cell.empty],
       [Cell.text "商品", Cell.text "单价", Cell.text "数量"],
       [Cell.text "A", Cell.num 1, Cell.empty],
       [Cell.text "总计", Cell.num 2, Cell.empty]]⟩

/-- The output of the import of `shGood` under the supply `genA`. -/
def outGoodA : ParseOut :=
  ⟨[⟨"a0", "Alice", some 2, false, false, false⟩],
   [⟨"a1", "a0", "A", 2, some 1, false⟩],
   [],
   [⟨"A", 1, none, none⟩],
   [⟨"a0", "Alice", false, false, false, some 2, "a1", "A", 2, some 1, false⟩]⟩

/-- The output of the import of `shGood` under the supply `genB`. -/
def outGoodB : ParseOut :=
  ⟨[⟨"b0", "Alice", some 2, false, false, false⟩],
   [⟨"b1", "b0", "A", 2, some 1, false⟩],
   [],
   [⟨"A", 1, none, none⟩],
   [⟨"b0", "Alice", false, false, false, some 2, "b1", "A", 2, some 1, false⟩]⟩

/-- A sheet whose single order content is `A x0`: a zero quantity. -/
def shQtyZero : Sheet :=
  ⟨3, [[Cell.text "序号", Cell.text "姓名", Cell.text "内容"],
       [Cell.text "1", Cell.text "Alice", Cell.text "A x0"],
       [Cell.text "商品汇总", Cell.empty, Cell.empty],
       [Cell.text "A", Cell.num 1, Cell.empty],
       [Cell.text "总计", Cell.empty, Cell.empty]]⟩

/-- The output of the import of `shQtyZero` under the supply `genA`. -/
def outQtyZero : ParseOut :=
  ⟨[⟨"a0", "Alice", some 0, false, false, false⟩],
   [⟨"a1", "a0", "A", 0, some 1, false⟩],
   [],
   [⟨"A", 1, none, none⟩],
   [⟨"a0", "Alice", false, false, false, some 0, "a1", "A", 0, some 1, false⟩]⟩

/-- A sheet with all markers present, at least three columns and a valid
catalog row, but with unconvertible text (`"abc"`) in the quantity column of
a second otherwise-valid catalog row. -/
def shCrash : Sheet :=
  ⟨3, [[Cell.text "序号", Cell.text "姓名", Cell.text "内容"],
       [Cell.text "1", Cell.text "Alice", Cell.text "A x1"],
       [Cell.text "商品汇总", Cell.empty, Cell.empty],
       [Cell.text "B", Cell.num 2, Cell.num 3],
       [Cell.text "A", Cell.num 1, Cell.text "abc"],
       [Cell.text "总计", Cell.empty, Cell.empty]]⟩

/-- A well-formed sheet whose single order content (`Widget`) parses to
zero items: the checklist join dies on the empty `items_df`. -/
def shNoItems : Sheet :=
  ⟨3, [[Cell.text "序号", Cell.text "姓名", Cell.text "内容"],
       [Cell.text "1", Cell.text "Alice", Cell.text "Widget"],
       [Cell.text "商品汇总", Cell.empty, Cell.empty],
       [Cell.text "A", Cell.num 1, Cell.empty],
       [Cell.text "总计", Cell.empty, Cell.empty]]⟩

/-- A well-formed sheet with no qualifying order row at all (the customer
and content cells of the only candidate row are missing): the checklist
join dies on the column-less empty `orders_df`. -/
def shNoOrders : Sheet :=
  ⟨3, [[Cell.text "序号", Cell.text "姓名", Cell.text "内容"],
       [Cell.text "1", Cell.empty, Cell.empty],
       [Cell.text "商品汇总", Cell.empty, Cell.empty],
       [Cell.text "A", Cell.num 1, Cell.empty],
       [Cell.text "总计", Cell.empty, Cell.empty]]⟩

/-- A sheet whose catalog section lists the item name `A` twice. -/
def shDup : Sheet :=
  ⟨3, [[Cell.text "序号", Cell.text "姓名", Cell.text "内容"],
       [Cell.text "1", Cell.text "Alice", Cell.text "A x1"],
       [Cell.text "商品汇总", Cell.empty, Cell.empty],
       [Cell.text "A", Cell.num 1, Cell.empty],
       [Cell.text "B", Cell.num 5, Cell.empty],
       [Cell.text "A", Cell.num 3, Cell.empty],
       [Cell.text "总计", Cell.empty, Cell.empty]]⟩

/-! Order-theoretic facts about the candidate comparison. -/

theorem strData_inj (a b : String) (h : a.data = b.data) : a = b := by
  cases a
  cases b
  exact congrArg String.mk h

theorem lexLt_irrefl (a : List Char) : lexLt a a = false := by
  induction a with
  | nil => rfl
  | cons c cs ih => simp [lexLt, ih]

theorem lexLt_trans (a : List Char) :
    ∀ b c : List Char, lexLt a b = true → lexLt b c = true → lexLt a c = true := by
  induction a with
  | nil =>
    intro b c hab hbc
    cases b with
    | nil => simp [lexLt] at hab
    | cons y ys =>
      cases c with
      | nil => simp [lexLt] at hbc
      | cons z zs => simp [lexLt]
  | cons x xs ih =>
    intro b c hab hbc
    cases b with
    | nil => simp [lexLt] at hab
    | cons y ys =>
      cases c with
      | nil => simp [lexLt] at hbc
      | cons z zs =>
        simp only [lexLt, Bool.or_eq_true, Bool.and_eq_true, decide_eq_true_eq] at hab hbc ⊢
        rcases hab with h1 | ⟨h1, h1l⟩
        · rcases hbc with h2 | ⟨h2, h2l⟩
          · exact Or.inl (lt_trans h1 h2)
          · exact Or.inl (h2 ▸ h1)
        · rcases hbc with h2 | ⟨h2, h2l⟩
          · exact Or.inl (h1 ▸ h2)
          · exact Or.inr ⟨h1.trans h2, ih ys zs h1l h2l⟩

theorem lexLt_connex (a : List Char) :
    ∀ b : List Char, lexLt a b = false → lexLt b a = false → a = b := by
  induction a with
  | nil =>
    intro b hab hba
    cases b with
    | nil => rfl
    | cons y ys => simp [lexLt] at hab
  | cons x xs ih =>
    intro b hab hba
    cases b with
    | nil => simp [lexLt] at hba
    | cons y ys =>
      simp only [lexLt, Bool.or_eq_false_iff, Bool.and_eq_false_iff,
        decide_eq_false_iff_not] at hab hba
      have hxy : x = y := le_antisymm (le_of_not_lt hba.1) (le_of_not_lt hab.1)
      subst hxy
      rcases hab.2 with h | h
      · exact absurd rfl h
      · rcases hba.2 with h' | h'
        · exact absurd rfl h'
        · rw [ih ys h h']

theorem keyLtB_irrefl (a : String) : keyLtB a a = false := by
  simp [keyLtB, lexLt_irrefl]

theorem keyLtB_trans (a b c : String) (h1 : keyLtB a b = true) (h2 : keyLtB b c = true) :
    keyLtB a c = true := by
  simp only [keyLtB, Bool.or_eq_true, Bool.and_eq_true, decide_eq_true_eq] at h1 h2 ⊢
  rcases h1 with h1 | ⟨h1, h1l⟩
  · rcases h2 with h2 | ⟨h2, h2l⟩
    · exact Or.inl (lt_trans h1 h2)
    · exact Or.inl (h2 ▸ h1)
  · rcases h2 with h2 | ⟨h2, h2l⟩
    · exact Or.inl (h1 ▸ h2)
    · exact Or.inr ⟨h1.trans h2, lexLt_trans _ _ _ h1l h2l⟩

theorem keyLtB_connex (a b : String) (h1 : keyLtB a b = false) (h2 : keyLtB b a = false) :
    a = b := by
  simp only [keyLtB, Bool.or_eq_false_iff, Bool.and_eq_false_iff,
    decide_eq_false_iff_not] at h1 h2
  have hlen : a.length = b.length := by omega
  apply strData_inj
  rcases h1.2 with h | h
  · exact absurd hlen h
  · rcases h2.2 with h' | h'
    · exact absurd hlen.symm h'
    · exact lexLt_connex _ _ h h'

theorem foldMaxBy_mem (lt : String → String → Bool) :
    ∀ (xs : List String) (x : String), foldMaxBy lt x xs ∈ x :: xs := by
  intro xs
  induction xs with
  | nil => intro x; simp [foldMaxBy]
  | cons k ks ih =>
    intro x
    have hstep : foldMaxBy lt x (k :: ks) = foldMaxBy lt (if lt x k then k else x) ks := rfl
    rw [hstep]
    rcases List.mem_cons.mp (ih (if lt x k then k else x)) with h' | h'
    · rw [h']
      by_cases hc : lt x k = true
      · rw [if_pos hc]
        simp
      · rw [if_neg hc]
        simp
    · simp [List.mem_cons, h']

theorem foldMaxBy_notlt_aux (lt : String → String → Bool)
    (htr : ∀ a b c, lt a b = true → lt b c = true → lt a c = true)
    (hconn : ∀ a b, lt a b = false → lt b a = false → a = b)
    (hirr : ∀ a, lt a a = false) :
    ∀ (xs : List String) (x : String),
      (∀ k ∈ xs, lt (foldMaxBy lt x xs) k = false) ∧
      lt (foldMaxBy lt x xs) x = false := by
  intro xs
  induction xs with
  | nil =>
    intro x
    exact ⟨by intro k hk; simp at hk, hirr x⟩
  | cons y ys ih =>
    intro x
    have hstep : foldMaxBy lt x (y :: ys) = foldMaxBy lt (if lt x y then y else x) ys := rfl
    obtain ⟨hys, hb⟩ := ih (if lt x y then y else x)
    by_cases hc : lt x y = true
    · rw [if_pos hc] at hys hb
      rw [hstep, if_pos hc]
      have hrx : lt (foldMaxBy lt y ys) x = false := by
        cases hrx : lt (foldMaxBy lt y ys) x with
        | false => rfl
        | true => rw [htr _ _ _ hrx hc] at hb; cases hb
      refine ⟨?_, hrx⟩
      intro k hk
      rcases List.mem_cons.mp hk with h' | h'
      · rw [h']
        exact hb
      · exact hys k h'
    · rw [if_neg hc] at hys hb
      rw [hstep, if_neg hc]
      have hcb : lt x y = false := by
        cases h : lt x y with
        | false => rfl
        | true => exact absurd h hc
      have hry : lt (foldMaxBy lt x ys) y = false := by
        cases hrk : lt (foldMaxBy lt x ys) y with
        | false => rfl
        | true =>
          cases hyx : lt y x with
          | true => rw [htr _ _ _ hrk hyx] at hb; cases hb
          | false =>
            have hxy := hconn x y hcb hyx
            rw [← hxy] at hrk
            rw [hrk] at hb
            cases hb
      refine ⟨?_, hb⟩
      intro k hk
      rcases List.mem_cons.mp hk with h' | h'
      · rw [h']
        exact hry
      · exact hys k h'

theorem foldMaxBy_notlt (lt : String → String → Bool)
    (htr : ∀ a b c, lt a b = true → lt b c = true → lt a c = true)
    (hconn : ∀ a b, lt a b = false → lt b a = false → a = b)
    (hirr : ∀ a, lt a a = false)
    (xs : List String) (x k : String) (hk : k ∈ x :: xs) :
    lt (foldMaxBy lt x xs) k = false := by
  obtain ⟨h1, h2⟩ := foldMaxBy_notlt_aux lt htr hconn hirr xs x
  rcases List.mem_cons.mp hk with h | h
  · rw [h]
    exact h2
  · exact h1 k h

theorem foldMax_unique (lt : String → String → Bool)
    (hconn : ∀ a b, lt a b = false → lt b a = false → a = b)
    (l : List String) (a b : String) (ha : a ∈ l) (hb : b ∈ l)
    (hmaxa : ∀ k ∈ l, lt a k = false) (hmaxb : ∀ k ∈ l, lt b k = false) : a = b :=
  hconn a b (hmaxa b hb) (hmaxb a ha)

theorem keyLtB_false_len (a b : String) (h : keyLtB a b = false) : b.length ≤ a.length := by
  simp only [keyLtB, Bool.or_eq_false_iff, decide_eq_false_iff_not] at h
  omega

theorem keyLtB_false_tie (a b : String) (h : keyLtB a b = false)
    (hlen : a.length = b.length) : lexLt a.data b.data = false := by
  simp only [keyLtB, Bool.or_eq_false_iff, Bool.and_eq_false_iff,
    decide_eq_false_iff_not] at h
  rcases h.2 with h' | h'
  · exact absurd hlen h'
  · exact h'

theorem foldLen_ge_init : ∀ (l : List String) (n : ℕ),
    n ≤ l.foldl (fun m k => max m k.length) n := by
  intro l
  induction l with
  | nil => intro n; exact le_refl n
  | cons y ys ih =>
    intro n
    exact le_trans (le_max_left n y.length) (ih (max n y.length))

theorem le_foldLen : ∀ (l : List String) (n : ℕ) (k : String), k ∈ l →
    k.length ≤ l.foldl (fun m k => max m k.length) n := by
  intro l
  induction l with
  | nil => intro n k hk; simp at hk
  | cons y ys ih =>
    intro n k hk
    rcases List.mem_cons.mp hk with h | h
    · rw [h]
      exact le_trans (le_max_right n y.length) (foldLen_ge_init ys (max n y.length))
    · exact ih (max n y.length) k h

theorem foldLen_le : ∀ (l : List String) (n b : ℕ), n ≤ b → (∀ k ∈ l, k.length ≤ b) →
    l.foldl (fun m k => max m k.length) n ≤ b := by
  intro l
  induction l with
  | nil => intro n b hn _; exact hn
  | cons y ys ih =>
    intro n b hn hb
    refine ih (max n y.length) b ?_ ?_
    · exact max_le hn (hb y (List.mem_cons_self _ _))
    · intro k hk
      exact hb k (List.mem_cons_of_mem _ hk)

theorem le_maxLenOf (l : List String) (k : String) (hk : k ∈ l) :
    k.length ≤ maxLenOf l :=
  le_foldLen l 0 k hk

theorem maxLenOf_le (l : List String) (b : ℕ) (hb : ∀ k ∈ l, k.length ≤ b) :
    maxLenOf l ≤ b :=
  foldLen_le l 0 b (Nat.zero_le b) hb

/-! Settling of the claims. -/

/-- Claim C10 (confirmed): calling `parse_order_content` with `None` content
or an empty string returns `wants_delivery = false`, an empty item list and
an empty warning list.  The embedded function is total, matching the fact
that the source raises on no input. -/
theorem c10_empty_content (pfxs : List String) (pm : List (String × ℚ)) :
    parse_order_content pfxs none pm = (false, [], []) ∧
    parse_order_content pfxs (some "") pm = (false, [], []) :=
  ⟨rfl, rfl⟩

/-- Claim C5 (confirmed): a non-empty cleaned segment that is not a delivery
choice and does not contain the total-price marker, but lacks the trailing
quantity pattern, contributes exactly the warning
`Skipped segment without trailing quantity 'xN': {segment}` and no item; in
particular segmenting `"Widget"` yields zero items and that one warning. -/
theorem c5_segment_without_qty (pfxs : List String) (npm : List (String × ℚ))
    (st : SegState) (p : String) (hne : p ≠ "")
    (htp : isSub totalPriceMarker p = false)
    (hdel : isDeliv pfxs p = false)
    (hq : findQty p.data = none) :
    processSegCore pfxs npm st p = { st with warnings := st.warnings ++ [skipMsg p] } ∧
    (∀ pm, parse_order_content defaultDeliveryPfxs (some "Widget") pm =
      (false, [], [skipMsg "Widget"])) := by
  constructor
  · have hkeep : segKeep p = true := by
      simp [segKeep, hne, htp]
    simp [processSegCore, hkeep, hdel, itemStepAcc, hq]
  · intro pm
    rfl

/-- Claim C5 witness at the concrete segment `"Widget"`. -/
theorem c5_segment_without_qty_witness :
    (("Widget" : String) ≠ "" ∧ isSub totalPriceMarker "Widget" = false ∧
      isDeliv defaultDeliveryPfxs "Widget" = false ∧ findQty "Widget".data = none) ∧
    (processSegCore defaultDeliveryPfxs [] ⟨false, [], []⟩ "Widget" =
      { wantsDelivery := false, items := [], warnings := [skipMsg "Widget"] } ∧
     (∀ pm, parse_order_content defaultDeliveryPfxs (some "Widget") pm =
        (false, [], [skipMsg "Widget"]))) :=
  ⟨⟨by decide, by decide, by decide, by decide⟩,
   c5_segment_without_qty defaultDeliveryPfxs [] ⟨false, [], []⟩ "Widget"
     (by decide) (by decide) (by decide) (by decide)⟩

/-- Claim C2 counterexample: with catalog keys iterated as `"a"` then `"b"`
and item name `"ab"`, both keys are maximal-length candidates; the code
resolves to `"b"` (the lexicographically greatest), not `"a"` (the first in
iteration order) as the claim's tie-break rule states. -/
theorem c2_cex_tiebreak :
    resolvePrice [("a", 1), ("b", 2)] "ab" = ("b", some 2, none) ∧
    resolvePriceSpecIterFirst [("a", 1), ("b", 2)] "ab" = ("a", some 1, none) ∧
    resolvePrice [("a", 1), ("b", 2)] "ab" ≠
      resolvePriceSpecIterFirst [("a", 1), ("b", 2)] "ab" ∧
    (parse_order_content defaultDeliveryPfxs (some "ab x1") [("a", 1), ("b", 2)]).2.1 =
      [⟨"b", 1, some 2⟩] :=
  ⟨rfl, rfl, by decide, rfl⟩

theorem lexStr_trans (a b c : String) (h1 : lexLt a.data b.data = true)
    (h2 : lexLt b.data c.data = true) : lexLt a.data c.data = true :=
  lexLt_trans a.data b.data c.data h1 h2

theorem lexStr_connex (a b : String) (h1 : lexLt a.data b.data = false)
    (h2 : lexLt b.data a.data = false) : a = b :=
  strData_inj a b (lexLt_connex a.data b.data h1 h2)

theorem lexStr_irrefl (a : String) : lexLt a.data a.data = false :=
  lexLt_irrefl a.data

/-- Claim C2, amended (the tie-break among equal-length candidates is the
lexicographically greatest key, not iteration order): the source's price
resolution coincides with the declarative resolver that tries an exact
lookup of the normalized name, then takes the substring candidates of
maximal length and chooses the lexicographically greatest, rewriting the
name to that canonical key and setting its price, and otherwise records the
warning `Missing price match for item: '{name}'`. -/
theorem c2_amended_resolution (npm : List (String × ℚ)) (name : String) :
    resolvePrice npm name = resolvePriceSpecAmended npm name := by
  cases hl : lookupQ npm name with
  | some p => simp [resolvePrice, resolvePriceSpecAmended, hl]
  | none =>
    cases hcs : candKeys npm name with
    | nil => simp [resolvePrice, resolvePriceSpecAmended, hl, hcs]
    | cons c rest =>
      have hmem : pickBest c rest ∈ c :: rest := foldMaxBy_mem keyLtB rest c
      have hmax : ∀ k ∈ c :: rest, keyLtB (pickBest c rest) k = false := fun k hk =>
        foldMaxBy_notlt keyLtB keyLtB_trans keyLtB_connex keyLtB_irrefl rest c k hk
      have hpblen : (pickBest c rest).length = maxLenOf (c :: rest) :=
        le_antisymm (le_maxLenOf _ _ hmem)
          (maxLenOf_le _ _ (fun k hk => keyLtB_false_len _ _ (hmax k hk)))
      have hpbf : pickBest c rest ∈
          (c :: rest).filter (fun k => k.length = maxLenOf (c :: rest)) :=
        List.mem_filter.mpr ⟨hmem, by simp [hpblen]⟩
      cases hf : (c :: rest).filter (fun k => k.length = maxLenOf (c :: rest)) with
      | nil =>
        rw [hf] at hpbf
        simp at hpbf
      | cons m ms =>
        rw [hf] at hpbf
        have hlmem : lexMaxStr m ms ∈ m :: ms :=
          foldMaxBy_mem (fun b k => lexLt b.data k.data) ms m
        have hlmax : ∀ k ∈ m :: ms, lexLt (lexMaxStr m ms).data k.data = false :=
          fun k hk => foldMaxBy_notlt (fun b k => lexLt b.data k.data)
            lexStr_trans lexStr_connex lexStr_irrefl ms m k hk
        have hlm_filter : lexMaxStr m ms ∈
            (c :: rest).filter (fun k => k.length = maxLenOf (c :: rest)) := by
          rw [hf]
          exact hlmem
        obtain ⟨hlmcs, hlmlen'⟩ := List.mem_filter.mp hlm_filter
        have hlmlen : (lexMaxStr m ms).length = maxLenOf (c :: rest) := by
          simpa using hlmlen'
        have h1 : keyLtB (pickBest c rest) (lexMaxStr m ms) = false := hmax _ hlmcs
        have h2 : keyLtB (lexMaxStr m ms) (pickBest c rest) = false := by
          have htie : lexLt (lexMaxStr m ms).data (pickBest c rest).data = false :=
            hlmax _ hpbf
          simp only [keyLtB, Bool.or_eq_false_iff, Bool.and_eq_false_iff,
            decide_eq_false_iff_not]
          constructor
          · omega
          · right
            exact htie
        have heq : pickBest c rest = lexMaxStr m ms := keyLtB_connex _ _ h1 h2
        simp [resolvePrice, resolvePriceSpecAmended, hl, hcs, hf, heq]

/-- Claim C9 (confirmed): on an exact-lookup miss with a non-empty candidate
set, the resolver picks a candidate of maximal character length that is
lexicographically greatest among the equal-length candidates — a
deterministic choice, not an iteration-order-dependent one — and sets the
price by looking up that canonical key. -/
theorem c9_deterministic_tiebreak (npm : List (String × ℚ)) (name : String)
    (h1 : lookupQ npm name = none) (h2 : candKeys npm name ≠ []) :
    (resolvePrice npm name).1 ∈ candKeys npm name ∧
    (∀ k ∈ candKeys npm name, k.length ≤ (resolvePrice npm name).1.length) ∧
    (∀ k ∈ candKeys npm name, k.length = (resolvePrice npm name).1.length →
      k = (resolvePrice npm name).1 ∨
      lexLt k.data (resolvePrice npm name).1.data = true) ∧
    (resolvePrice npm name).2.1 = lookupQ npm (resolvePrice npm name).1 ∧
    (resolvePrice npm name).2.2 = none := by
  cases hcs : candKeys npm name with
  | nil => exact absurd hcs h2
  | cons c rest =>
    have hres : resolvePrice npm name = (pickBest c rest, lookupQ npm (pickBest c rest), none) := by
      simp [resolvePrice, h1, hcs]
    have hmem : pickBest c rest ∈ c :: rest := foldMaxBy_mem keyLtB rest c
    have hmax : ∀ k ∈ c :: rest, keyLtB (pickBest c rest) k = false := fun k hk =>
      foldMaxBy_notlt keyLtB keyLtB_trans keyLtB_connex keyLtB_irrefl rest c k hk
    simp only [hres, hcs]
    refine ⟨hmem, ?_, ?_, trivial, trivial⟩
    · intro k hk
      exact keyLtB_false_len _ _ (hmax k hk)
    · intro k hk hlen
      have htie : lexLt (pickBest c rest).data k.data = false :=
      keyLtB_false_tie _ _ (hmax k hk) hlen.symm
      cases hkc : lexLt k.data (pickBest c rest).data with
      | true => exact Or.inr rfl
      | false => exact Or.inl (lexStr_connex k _ hkc htie)

/-- Claim C9 witness: keys `"ab"` and `"cd"` both match `"abcd"` with equal
length; the resolver picks `"cd"`. -/
theorem c9_deterministic_tiebreak_witness :
    (lookupQ [("ab", 1), ("cd", 2)] "abcd" = none ∧
     candKeys [("ab", 1), ("cd", 2)] "abcd" ≠ []) ∧
    ((resolvePrice [("ab", 1), ("cd", 2)] "abcd").1 ∈
        candKeys [("ab", 1), ("cd", 2)] "abcd" ∧
     (∀ k ∈ candKeys [("ab", 1), ("cd", 2)] "abcd",
        k.length ≤ (resolvePrice [("ab", 1), ("cd", 2)] "abcd").1.length) ∧
     (∀ k ∈ candKeys [("ab", 1), ("cd", 2)] "abcd",
        k.length = (resolvePrice [("ab", 1), ("cd", 2)] "abcd").1.length →
        k = (resolvePrice [("ab", 1), ("cd", 2)] "abcd").1 ∨
        lexLt k.data (resolvePrice [("ab", 1), ("cd", 2)] "abcd").1.data = true) ∧
     (resolvePrice [("ab", 1), ("cd", 2)] "abcd").2.1 =
        lookupQ [("ab", 1), ("cd", 2)] (resolvePrice [("ab", 1), ("cd", 2)] "abcd").1 ∧
     (resolvePrice [("ab", 1), ("cd", 2)] "abcd").2.2 = none) :=
  ⟨⟨by decide, by decide⟩,
   c9_deterministic_tiebreak [("ab", 1), ("cd", 2)] "abcd" (by decide) (by decide)⟩

theorem segFold_decomp (pfxs : List String) (npm : List (String × ℚ)) :
    ∀ (segs : List String) (st : SegState),
      segs.foldl (processSegCore pfxs npm) st =
        ⟨st.wantsDelivery || (segs.filter segKeep).any (isDeliv pfxs),
         ((segs.filter (fun p => segKeep p && !(isDeliv pfxs p))).foldl
            (itemStepAcc npm) (st.items, st.warnings)).1,
         ((segs.filter (fun p => segKeep p && !(isDeliv pfxs p))).foldl
            (itemStepAcc npm) (st.items, st.warnings)).2⟩ := by
  intro segs
  induction segs with
  | nil =>
    intro st
    obtain ⟨w, its, ws⟩ := st
    simp
  | cons p ps ih =>
    intro st
    rw [List.foldl_cons]
    by_cases hk : segKeep p = true
    · by_cases hd : isDeliv pfxs p = true
      · have hstep : processSegCore pfxs npm st p = { st with wantsDelivery := true } := by
          simp [processSegCore, hk, hd]
        rw [hstep, ih]
        simp [List.filter_cons, hk, hd]
      · have hd' : isDeliv pfxs p = false := by
          cases h : isDeliv pfxs p
          · rfl
          · exact absurd h hd
        have hstep : processSegCore pfxs npm st p =
            ⟨st.wantsDelivery, (itemStepAcc npm (st.items, st.warnings) p).1,
             (itemStepAcc npm (st.items, st.warnings) p).2⟩ := by
          simp [processSegCore, hk, hd']
        rw [hstep, ih]
        simp [List.filter_cons, hk, hd']
    · have hk' : segKeep p = false := by
        cases h : segKeep p
        · rfl
        · exact absurd h hk
      have hstep : processSegCore pfxs npm st p = st := by
        simp [processSegCore, hk']
      rw [hstep, ih]
      simp [List.filter_cons, hk']

/-- Claim C6 (confirmed): the delivery flag is true exactly when some
cleaned, kept segment (empty and total-price segments discarded) starts with
a configured delivery prefix, and the items and warnings are produced solely
by the kept non-delivery segments — a delivery segment contributes no item
and no warning. -/
theorem c6_delivery_segments (pfxs : List String) (content : Option String)
    (pm : List (String × ℚ)) :
    parse_order_content pfxs content pm =
      ((((splitParts (textOf content)).map stripSeg).filter segKeep).any (isDeliv pfxs),
       ((((splitParts (textOf content)).map stripSeg).filter
          (fun p => segKeep p && !(isDeliv pfxs p))).foldl
            (itemStepAcc (normPriceMapOf pm)) ([], [])).1,
       ((((splitParts (textOf content)).map stripSeg).filter
          (fun p => segKeep p && !(isDeliv pfxs p))).foldl
            (itemStepAcc (normPriceMapOf pm)) ([], [])).2) := by
  simp only [parse_order_content]
  rw [← List.foldl_map stripSeg (processSegCore pfxs (normPriceMapOf pm))]
  rw [segFold_decomp]
  simp

/-! Facts about the total computation and identifier attachment. -/

theorem totalFold_char : ∀ (items : List SegItem) (t : ℚ) (m : Bool),
    items.foldl totalStep (t, m) =
      (t + (items.map (fun it => (it.quantity : ℚ) * it.price.getD 0)).sum,
       m || items.any (fun it => it.price.isNone)) := by
  intro items
  induction items with
  | nil => intro t m; simp
  | cons it its ih =>
    intro t m
    rw [List.foldl_cons]
    cases hp : it.price with
    | none =>
      have hstep : totalStep (t, m) it = (t, true) := by
        simp [totalStep, hp]
      rw [hstep, ih]
      simp [hp]
    | some p =>
      have hstep : totalStep (t, m) it = (t + (it.quantity : ℚ) * p, m) := by
        simp [totalStep, hp]
      rw [hstep, ih]
      simp [hp, add_assoc]

theorem computeTotal_char (items : List SegItem) :
    computeTotalDollar items =
      if items.any (fun it => it.price.isNone) then none
      else some (round2 ((items.map (fun it => (it.quantity : ℚ) * it.price.getD 0)).sum)) := by
  unfold computeTotalDollar
  rw [totalFold_char]
  simp

theorem attachIds_any_none (gen : ℕ → String) (oid : String) :
    ∀ (n : ℕ) (items : List SegItem),
      ((attachIds gen oid n items).any fun it => it.price.isNone) =
        (items.any fun it => it.price.isNone) := by
  intro n items
  induction items generalizing n with
  | nil => rfl
  | cons it its ih => simp [attachIds, ih]

theorem attachIds_sumItems (gen : ℕ → String) (oid : String) :
    ∀ (n : ℕ) (items : List SegItem),
      sumItems (attachIds gen oid n items) =
        (items.map (fun it => (it.quantity : ℚ) * it.price.getD 0)).sum := by
  intro n items
  induction items generalizing n with
  | nil => rfl
  | cons it its ih =>
    simp only [attachIds, sumItems, List.map_cons, List.sum_cons]
    have h2 := ih (n + 1)
    simp only [sumItems] at h2
    rw [h2]

theorem attachIds_eq_nil (gen : ℕ → String) (oid : String) (n : ℕ)
    (items : List SegItem) : attachIds gen oid n items = [] ↔ items = [] := by
  cases items <;> simp [attachIds]

theorem round2_zero : round2 0 = 0 := by
  with_unfolding_all rfl

theorem processOrderRow_total (pm : List (String × ℚ)) (gen : ℕ → String)
    (n : ℕ) (row : List Cell) :
    ((processOrderRow pm gen n row).order.totalDollar = none ↔
      ∃ it ∈ (processOrderRow pm gen n row).items, it.price = none) ∧
    (∀ q, (processOrderRow pm gen n row).order.totalDollar = some q →
      q = round2 (sumItems (processOrderRow pm gen n row).items)) ∧
    ((processOrderRow pm gen n row).items = [] →
      (processOrderRow pm gen n row).order.totalDollar = some 0) := by
  have horder : (processOrderRow pm gen n row).order.totalDollar =
      computeTotalDollar (parse_order_content defaultDeliveryPfxs
        (some (cellStr (rowCell row 2))) pm).2.1 := rfl
  have hitems : (processOrderRow pm gen n row).items =
      attachIds gen (gen n) (n + 1) (parse_order_content defaultDeliveryPfxs
        (some (cellStr (rowCell row 2))) pm).2.1 := rfl
  set its := (parse_order_content defaultDeliveryPfxs
    (some (cellStr (rowCell row 2))) pm).2.1 with hits
  refine ⟨?_, ?_, ?_⟩
  · rw [horder, hitems, computeTotal_char]
    constructor
    · intro hnone
      by_cases hany : (its.any fun it => it.price.isNone) = true
      · have : ((attachIds gen (gen n) (n + 1) its).any fun it => it.price.isNone) = true := by
          rw [attachIds_any_none]
          exact hany
        rcases List.any_eq_true.mp this with ⟨it, hmem, hpn⟩
        exact ⟨it, hmem, Option.isNone_iff_eq_none.mp hpn⟩
      · rw [if_neg hany] at hnone
        cases hnone
    · intro ⟨it, hmem, hpn⟩
      have : ((attachIds gen (gen n) (n + 1) its).any fun it => it.price.isNone) = true :=
        List.any_eq_true.mpr ⟨it, hmem, by simp [hpn]⟩
      rw [attachIds_any_none] at this
      rw [if_pos this]
  · intro q hq
    rw [horder, computeTotal_char] at hq
    by_cases hany : (its.any fun it => it.price.isNone) = true
    · rw [if_pos hany] at hq
      cases hq
    · rw [if_neg hany] at hq
      injection hq with hq'
      rw [hitems, attachIds_sumItems]
      exact hq'.symm
  · intro hnil
    rw [hitems, attachIds_eq_nil] at hnil
    rw [horder, computeTotal_char, hnil]
    simp [round2_zero]

theorem processRows_total_inv (pm : List (String × ℚ)) (gen : ℕ → String) :
    ∀ (rows : List (List Cell)) (n : ℕ) r, r ∈ processRows pm gen n rows →
      (r.1.totalDollar = none ↔ ∃ it ∈ r.2.1, it.price = none) ∧
      (∀ q, r.1.totalDollar = some q → q = round2 (sumItems r.2.1)) ∧
      (r.2.1 = [] → r.1.totalDollar = some 0) := by
  intro rows
  induction rows with
  | nil => intro n r hr; simp [processRows] at hr
  | cons row rest ih =>
    intro n r hr
    rw [processRows] at hr
    rcases List.mem_cons.mp hr with h | h
    · rw [h]
      exact processOrderRow_total pm gen n row
    · exact ih _ r h

theorem assembleOutputs_ok (cat : List CatEntry)
    (results : List (OrderRec × List ItemRec × List IssueRec)) (out : ParseOut)
    (h : assembleOutputs cat results = Except.ok out) :
    out.orders = results.map (fun r => r.1) ∧
    out.items = results.flatMap (fun r => r.2.1) ∧
    out.issues = results.flatMap (fun r => r.2.2) ∧
    out.catalog = cat := by
  unfold assembleOutputs at h
  by_cases h1 : results.map (fun r => r.1) = []
  · rw [if_pos h1] at h
    cases h
  · rw [if_neg h1] at h
    by_cases h2 : results.flatMap (fun r => r.2.1) = []
    · rw [if_pos h2] at h
      cases h
    · rw [if_neg h2] at h
      injection h with h'
      rw [← h']
      exact ⟨rfl, rfl, rfl, rfl⟩

theorem parse_ok_decomp (sh : Sheet) (gen : ℕ → String) (out : ParseOut)
    (h : parse_orders_and_items sh gen = Except.ok out) :
    ∃ cat pm hIdx sIdx,
      parse_item_catalog sh = Except.ok (cat, pm) ∧
      headerIdxOf sh = some hIdx ∧ summaryIdxOf sh = some sIdx ∧
      rowResultsOf sh gen = processRows pm gen 0 (ordersSpanRows sh hIdx sIdx) ∧
      out.orders = (rowResultsOf sh gen).map (fun r => r.1) ∧
      out.items = (rowResultsOf sh gen).flatMap (fun r => r.2.1) ∧
      out.issues = (rowResultsOf sh gen).flatMap (fun r => r.2.2) ∧
      out.catalog = cat := by
  unfold parse_orders_and_items at h
  cases hc : parse_item_catalog sh with
  | error e =>
    rw [hc] at h
    exact absurd h (by simp)
  | ok cp =>
    obtain ⟨cat, pm⟩ := cp
    rw [hc] at h
    simp only [] at h
    by_cases h3 : sh.ncols < 3
    · rw [if_pos h3] at h
      exact absurd h (by simp)
    · rw [if_neg h3] at h
      cases hh : headerIdxOf sh with
      | none =>
        rw [hh] at h
        exact absurd h (by simp)
      | some hIdx =>
        rw [hh] at h
        cases hs : summaryIdxOf sh with
        | none =>
          rw [hs] at h
          exact absurd h (by simp)
        | some sIdx =>
          rw [hs] at h
          have hrow : rowResultsOf sh gen =
              processRows pm gen 0 (ordersSpanRows sh hIdx sIdx) := by
            unfold rowResultsOf
            rw [hc]
            simp only [if_neg h3, hh, hs]
          obtain ⟨ho, hi, hiss, hcat⟩ := assembleOutputs_ok _ _ _ h
          refine ⟨cat, pm, hIdx, sIdx, rfl, rfl, rfl, hrow, ?_, ?_, ?_, hcat⟩
          · rw [ho, hrow]
          · rw [hi, hrow]
          · rw [hiss, hrow]

/-- Claim C1 (confirmed): for every order emitted by a successful
`parse_orders_and_items`, with its per-row item list (the items collection is
exactly the concatenation of those per-row lists): `totalDollar` is `None`
iff some of the order's items has a `None` price; otherwise it equals the
sum of `quantity * price` over the order's items rounded to 2 decimal
places; an order with zero items gets total `0.0`. -/
theorem c1_total_invariant (sh : Sheet) (gen : ℕ → String) (out : ParseOut)
    (h : parse_orders_and_items sh gen = Except.ok out) :
    out.items = (rowResultsOf sh gen).flatMap (fun r => r.2.1) ∧
    ∀ o ∈ out.orders, ∃ r ∈ rowResultsOf sh gen, o = r.1 ∧
      (o.totalDollar = none ↔ ∃ it ∈ r.2.1, it.price = none) ∧
      (∀ q, o.totalDollar = some q → q = round2 (sumItems r.2.1)) ∧
      (r.2.1 = [] → o.totalDollar = some 0) := by
  obtain ⟨cat, pm, hIdx, sIdx, hc, hh, hs, hrow, ho, hi, _, _⟩ :=
    parse_ok_decomp sh gen out h
  refine ⟨hi, ?_⟩
  intro o hmem
  rw [ho] at hmem
  rcases List.mem_map.mp hmem with ⟨r, hr, hor⟩
  refine ⟨r, hr, hor.symm, ?_⟩
  rw [hrow] at hr
  have := processRows_total_inv pm gen (ordersSpanRows sh hIdx sIdx) 0 r hr
  rw [hor] at this
  exact this

/-- Claim C1 witness at the sheet `shGood`. -/
theorem c1_total_invariant_witness :
    parse_orders_and_items shGood genA = Except.ok outGoodA ∧
    (outGoodA.items = (rowResultsOf shGood genA).flatMap (fun r => r.2.1) ∧
     ∀ o ∈ outGoodA.orders, ∃ r ∈ rowResultsOf shGood genA, o = r.1 ∧
       (o.totalDollar = none ↔ ∃ it ∈ r.2.1, it.price = none) ∧
       (∀ q, o.totalDollar = some q → q = round2 (sumItems r.2.1)) ∧
       (r.2.1 = [] → o.totalDollar = some 0)) :=
  ⟨by with_unfolding_all rfl,
   c1_total_invariant shGood genA outGoodA (by with_unfolding_all rfl)⟩

/-! Quantity bounds (claim C4). -/

theorem itemAccFold_nonneg (npm : List (String × ℚ)) :
    ∀ (segs : List String) (acc : List SegItem × List String),
      (∀ it ∈ acc.1, 0 ≤ it.quantity) →
      ∀ it ∈ (segs.foldl (itemStepAcc npm) acc).1, 0 ≤ it.quantity := by
  intro segs
  induction segs with
  | nil => intro acc hacc it hit; exact hacc it hit
  | cons p ps ih =>
    intro acc hacc it hit
    rw [List.foldl_cons] at hit
    refine ih (itemStepAcc npm acc p) ?_ it hit
    intro it' hit'
    unfold itemStepAcc at hit'
    cases hq : findQty p.data with
    | none =>
      rw [hq] at hit'
      exact hacc it' hit'
    | some iq =>
      obtain ⟨i, qty⟩ := iq
      rw [hq] at hit'
      simp only [] at hit'
      rcases List.mem_append.mp hit' with h | h
      · exact hacc it' h
      · rcases List.mem_singleton.mp h with rfl
        exact Int.natCast_nonneg qty

theorem parse_order_content_qty_nonneg (pfxs : List String)
    (content : Option String) (pm : List (String × ℚ)) :
    ∀ it ∈ (parse_order_content pfxs content pm).2.1, 0 ≤ it.quantity := by
  intro it hit
  simp only [parse_order_content] at hit
  rw [← List.foldl_map stripSeg (processSegCore pfxs (normPriceMapOf pm)),
    segFold_decomp] at hit
  exact itemAccFold_nonneg (normPriceMapOf pm) _ ([], [])
    (by intro it' hit'; simp at hit') it hit

theorem attachIds_nonneg (gen : ℕ → String) (oid : String) :
    ∀ (n : ℕ) (items : List SegItem), (∀ si ∈ items, 0 ≤ si.quantity) →
      ∀ it ∈ attachIds gen oid n items, 0 ≤ it.quantity := by
  intro n items
  induction items generalizing n with
  | nil => intro _ it hit; simp [attachIds] at hit
  | cons si sis ih =>
    intro hall it hit
    rw [attachIds] at hit
    rcases List.mem_cons.mp hit with h | h
    · rw [h]
      exact hall si (List.mem_cons_self _ _)
    · exact ih (n + 1) (fun si' hsi' => hall si' (List.mem_cons_of_mem _ hsi')) it h

theorem processRows_qty_nonneg (pm : List (String × ℚ)) (gen : ℕ → String) :
    ∀ (rows : List (List Cell)) (n : ℕ) r, r ∈ processRows pm gen n rows →
      ∀ it ∈ r.2.1, 0 ≤ it.quantity := by
  intro rows
  induction rows with
  | nil => intro n r hr; simp [processRows] at hr
  | cons row rest ih =>
    intro n r hr
    rw [processRows] at hr
    rcases List.mem_cons.mp hr with h | h
    · intro it hit
      rw [h] at hit
      exact attachIds_nonneg gen _ _ _
        (parse_order_content_qty_nonneg defaultDeliveryPfxs _ pm) it hit
    · exact ih _ r h

/-- Claim C4, amended (quantities are nonnegative, not strictly positive: a
trailing `x0` yields a zero quantity): every item record a successful import
emits has quantity ≥ 0 as a Python `int`. -/
theorem c4_amended_qty_nonneg (sh : Sheet) (gen : ℕ → String) (out : ParseOut)
    (h : parse_orders_and_items sh gen = Except.ok out) :
    ∀ it ∈ out.items, 0 ≤ it.quantity := by
  obtain ⟨cat, pm, hIdx, sIdx, _, _, _, hrow, _, hi, _, _⟩ :=
    parse_ok_decomp sh gen out h
  intro it hit
  rw [hi, hrow] at hit
  rcases List.mem_flatMap.mp hit with ⟨r, hr, hitr⟩
  exact processRows_qty_nonneg pm gen _ 0 r hr it hitr

/-- Claim C4 counterexample: importing a sheet whose order content is
`"A x0"` succeeds and emits an item with quantity `0`, which is not a
positive integer. -/
theorem c4_cex_zero_quantity :
    parse_orders_and_items shQtyZero genA = Except.ok outQtyZero ∧
    (⟨"a1", "a0", "A", 0, some 1, false⟩ : ItemRec) ∈ outQtyZero.items ∧
    ¬(0 < (⟨"a1", "a0", "A", 0, some 1, false⟩ : ItemRec).quantity) :=
  ⟨by with_unfolding_all rfl, by decide, by decide⟩

/-- Claim C4 witness at the sheet `shGood`. -/
theorem c4_amended_qty_nonneg_witness :
    parse_orders_and_items shGood genA = Except.ok outGoodA ∧
    (∀ it ∈ outGoodA.items, 0 ≤ it.quantity) :=
  ⟨by with_unfolding_all rfl,
   c4_amended_qty_nonneg shGood genA outGoodA (by with_unfolding_all rfl)⟩

/-! Facts about the catalog extraction loop. -/

theorem isErr_map {ε α β : Type} (f : α → β) (e : Except ε α) :
    isErr (e.map f) = isErr e := by
  cases e <;> rfl

theorem optCol_err (sh : Sheet) (row : List Cell) (j : ℕ) :
    isErr (optCol sh row j) = badColB sh row j := by
  unfold optCol badColB
  by_cases hj : j < sh.ncols
  · rw [if_pos hj]
    cases hc : rowCell row j with
    | empty => simp [Cell.isNA, isErr]
    | text s => simp [Cell.isNA, isErr_map, hj]
    | num q => simp [Cell.isNA, isErr, Except.map, floatOfCell, hj]
  · rw [if_neg hj]
    simp [isErr, hj]

theorem takeUntilTotal_cons_break (row : List Cell) (rest : List (List Cell))
    (h : stripTextEq (rowCell row 0) total_marker = true) :
    takeUntilTotal (row :: rest) = [] := by
  simp [takeUntilTotal, List.takeWhile, h]

theorem takeUntilTotal_cons_keep (row : List Cell) (rest : List (List Cell))
    (h : stripTextEq (rowCell row 0) total_marker = false) :
    takeUntilTotal (row :: rest) = row :: takeUntilTotal rest := by
  simp [takeUntilTotal, List.takeWhile, h]

theorem collectCat_err (sh : Sheet) :
    ∀ l : List (List Cell),
      isErr (collectCat sh l) = (takeUntilTotal l).any (crashRowB sh) := by
  intro l
  induction l with
  | nil => rfl
  | cons row rest ih =>
    cases hbreak : stripTextEq (rowCell row 0) total_marker with
    | true =>
      rw [takeUntilTotal_cons_break row rest hbreak]
      unfold collectCat
      rw [if_pos hbreak]
      rfl
    | false =>
      rw [takeUntilTotal_cons_keep row rest hbreak]
      unfold collectCat
      rw [if_neg (by simp [hbreak])]
      cases hhead : isHeaderCell (rowCell row 0) with
      | true =>
        rw [if_pos rfl, ih]
        simp [crashRowB, acceptsRowB, hhead]
      | false =>
        rw [if_neg (by simp)]
        cases hcell : rowCell row 0 with
        | text s =>
          rw [hcell] at hhead
          by_cases hst : pyStrip s = ""
          · simp [hst, ih, crashRowB, acceptsRowB, hhead, hcell]
          · cases hprice : rowCell row 1 with
            | num q =>
              have hacc : acceptsRowB row = true := by
                simp [acceptsRowB, hhead, hcell, hprice, isNumCell, hst]
              have h2 := optCol_err sh row 2
              have h3 := optCol_err sh row 3
              cases e2 : optCol sh row 2 with
              | error u =>
                rw [e2] at h2
                simp only [isErr] at h2
                simp [hst, crashRowB, hacc, ← h2, isErr]
              | ok sq =>
                rw [e2] at h2
                simp only [isErr] at h2
                cases e3 : optCol sh row 3 with
                | error u =>
                  rw [e3] at h3
                  simp only [isErr] at h3
                  simp [hst, crashRowB, hacc, ← h2, ← h3, isErr]
                | ok sa =>
                  rw [e3] at h3
                  simp only [isErr] at h3
                  cases e4 : collectCat sh rest with
                  | error u =>
                    rw [e4] at ih
                    simp only [isErr] at ih
                    simp [hst, crashRowB, hacc, ← h2, ← h3, ← ih, isErr]
                  | ok tail =>
                    rw [e4] at ih
                    simp only [isErr] at ih
                    simp [hst, crashRowB, hacc, ← h2, ← h3, ← ih, isErr]
            | text t =>
              simp [hst, ih, crashRowB, acceptsRowB, hhead, hcell, hprice, isNumCell]
            | empty =>
              simp [hst, ih, crashRowB, acceptsRowB, hhead, hcell, hprice, isNumCell]
        | num q =>
          simp [ih, crashRowB, acceptsRowB, hcell]
        | empty =>
          simp [ih, crashRowB, acceptsRowB, hcell]

theorem entryOfRow_none (sh : Sheet) (row : List Cell)
    (hacc : acceptsRowB row = false) : entryOfRow sh row = none := by
  unfold entryOfRow
  cases hc0 : rowCell row 0 with
  | text s =>
    cases hc1 : rowCell row 1 with
    | num q => simp [hacc]
    | text t => rfl
    | empty => rfl
  | num q => rfl
  | empty => rfl

theorem entryOfRow_some (sh : Sheet) (row : List Cell) (s : String) (q : ℚ)
    (hc0 : rowCell row 0 = Cell.text s) (hc1 : rowCell row 1 = Cell.num q)
    (hacc : acceptsRowB row = true) :
    entryOfRow sh row =
      some ⟨pyStrip s, q, okOrNone (optCol sh row 2), okOrNone (optCol sh row 3)⟩ := by
  unfold entryOfRow
  rw [hc0, hc1]
  simp [hacc]

theorem collectCat_ok (sh : Sheet) :
    ∀ (l : List (List Cell)) (entries : List CatEntry),
      collectCat sh l = Except.ok entries →
      entries = (takeUntilTotal l).filterMap (entryOfRow sh) := by
  intro l
  induction l with
  | nil =>
    intro entries h
    injection h with h'
    rw [← h']
    rfl
  | cons row rest ih =>
    intro entries h
    unfold collectCat at h
    cases hbreak : stripTextEq (rowCell row 0) total_marker with
    | true =>
      rw [hbreak, if_pos rfl] at h
      injection h with h'
      rw [← h', takeUntilTotal_cons_break row rest hbreak]
      rfl
    | false =>
      rw [hbreak, if_neg (by simp)] at h
      rw [takeUntilTotal_cons_keep row rest hbreak]
      cases hhead : isHeaderCell (rowCell row 0) with
      | true =>
        rw [hhead, if_pos rfl] at h
        have hnone : entryOfRow sh row = none :=
          entryOfRow_none sh row (by simp [acceptsRowB, hhead])
        rw [List.filterMap_cons, hnone]
        exact ih entries h
      | false =>
        rw [hhead, if_neg (by simp)] at h
        cases hcell : rowCell row 0 with
        | text s =>
          rw [hcell] at hhead
          rw [hcell] at h
          simp only [] at h
          by_cases hst : pyStrip s = ""
          · rw [if_neg (by simp [hst])] at h
            have hnone : entryOfRow sh row = none := by
              refine entryOfRow_none sh row ?_
              simp [acceptsRowB, hcell, hst]
            rw [List.filterMap_cons, hnone]
            exact ih entries h
          · rw [if_pos (by simp [hst])] at h
            cases hprice : rowCell row 1 with
            | num q =>
              rw [hprice] at h
              simp only [] at h
              have hacc : acceptsRowB row = true := by
                simp [acceptsRowB, hhead, hcell, hprice, isNumCell, hst]
              cases e2 : optCol sh row 2 with
              | error u =>
                rw [e2] at h
                simp at h
              | ok sq =>
                rw [e2] at h
                cases e3 : optCol sh row 3 with
                | error u =>
                  rw [e3] at h
                  simp at h
                | ok sa =>
                  rw [e3] at h
                  cases e4 : collectCat sh rest with
                  | error u =>
                    rw [e4] at h
                    simp at h
                  | ok tail =>
                    rw [e4] at h
                    simp only [Except.ok.injEq] at h
                    have hsome := entryOfRow_some sh row s q hcell hprice hacc
                    rw [List.filterMap_cons, hsome, ← ih tail e4, ← h]
                    simp [okOrNone, e2, e3]
            | text t =>
              rw [hprice] at h
              simp only [] at h
              have hnone : entryOfRow sh row = none := by
                refine entryOfRow_none sh row ?_
                simp [acceptsRowB, hcell, hprice, isNumCell]
              rw [List.filterMap_cons, hnone]
              exact ih entries h
            | empty =>
              rw [hprice] at h
              simp only [] at h
              have hnone : entryOfRow sh row = none := by
                refine entryOfRow_none sh row ?_
                simp [acceptsRowB, hcell, hprice, isNumCell]
              rw [List.filterMap_cons, hnone]
              exact ih entries h
        | num q =>
          rw [hcell] at h
          simp only [] at h
          have hnone : entryOfRow sh row = none := by
            refine entryOfRow_none sh row ?_
            simp [acceptsRowB, hcell]
          rw [List.filterMap_cons, hnone]
          exact ih entries h
        | empty =>
          rw [hcell] at h
          simp only [] at h
          have hnone : entryOfRow sh row = none := by
            refine entryOfRow_none sh row ?_
            simp [acceptsRowB, hcell]
          rw [List.filterMap_cons, hnone]
          exact ih entries h

theorem find?_append_none {α : Type} (p : α → Bool) :
    ∀ (l1 l2 : List α), l1.find? p = none → (l1 ++ l2).find? p = l2.find? p := by
  intro l1
  induction l1 with
  | nil => intro l2 _; rfl
  | cons a t ih =>
    intro l2 h
    cases pa : p a with
    | true => rw [List.find?_cons_of_pos t pa] at h; cases h
    | false =>
      rw [List.find?_cons_of_neg t (by simp [pa])] at h
      rw [List.cons_append, List.find?_cons_of_neg _ (by simp [pa])]
      exact ih l2 h

theorem find?_append_some {α : Type} (p : α → Bool) :
    ∀ (l1 l2 : List α) (x : α), l1.find? p = some x → (l1 ++ l2).find? p = some x := by
  intro l1
  induction l1 with
  | nil => intro l2 x h; cases h
  | cons a t ih =>
    intro l2 x h
    cases pa : p a with
    | true =>
      rw [List.find?_cons_of_pos t pa] at h
      rw [List.cons_append, List.find?_cons_of_pos _ pa]
      exact h
    | false =>
      rw [List.find?_cons_of_neg t (by simp [pa])] at h
      rw [List.cons_append, List.find?_cons_of_neg _ (by simp [pa])]
      exact ih l2 x h

theorem dedupKeepLast_find (nm : String) :
    ∀ l : List CatEntry,
      (dedupKeepLast l).find? (fun e => e.item_name = nm) =
        l.reverse.find? (fun e => e.item_name = nm) := by
  intro l
  induction l with
  | nil => rfl
  | cons e rest ih =>
    rw [List.reverse_cons]
    unfold dedupKeepLast
    by_cases hdup : (rest.any fun e2 => e2.item_name = e.item_name) = true
    · rw [if_pos hdup, ih]
      cases hf : rest.reverse.find? (fun e2 => e2.item_name = nm) with
      | some x => exact (find?_append_some _ _ _ x hf).symm
      | none =>
        rw [find?_append_none _ _ _ hf]
        have hne : (decide (e.item_name = nm)) = false := by
          by_cases heq : e.item_name = nm
          · exfalso
            rcases List.any_eq_true.mp hdup with ⟨x, hx, hx'⟩
            have hx2 : x.item_name = e.item_name := by simpa using hx'
            have hxnm : (fun e2 => decide (e2.item_name = nm)) x = true := by
              simp only [decide_eq_true_eq]
              rw [hx2, heq]
            exact (List.find?_eq_none.mp hf x (List.mem_reverse.mpr hx)) hxnm
          · simp [heq]
        rw [List.find?_cons_of_neg _ (by simp at hne ⊢; exact hne), List.find?_nil]
    · rw [if_neg hdup]
      by_cases hnm : e.item_name = nm
      · have hrf : rest.reverse.find? (fun e2 => e2.item_name = nm) = none := by
          apply List.find?_eq_none.mpr
          intro x hx hpx
          apply hdup
          refine List.any_eq_true.mpr ⟨x, List.mem_reverse.mp hx, ?_⟩
          simp only [decide_eq_true_eq] at hpx ⊢
          rw [hpx, hnm]
        rw [find?_append_none _ _ _ hrf]
        rw [List.find?_cons_of_pos _ (by simp [hnm]),
          List.find?_cons_of_pos _ (by simp [hnm])]
      · rw [List.find?_cons_of_neg _ (by simp [hnm]), ih]
        cases hf : rest.reverse.find? (fun e2 => e2.item_name = nm) with
        | some x => exact (find?_append_some _ _ _ x hf).symm
        | none =>
          rw [find?_append_none _ _ _ hf]
          rw [List.find?_cons_of_neg _ (by simp [hnm]), List.find?_nil]

/-- Claim C7 (confirmed): in a successful catalog extraction located at the
summary marker, the rows of the span up to the total marker become catalog
entries exactly when accepted (non-empty string first cell that is no
header/marker string, numeric second cell — the content of `entryOfRow`),
and on duplicate trimmed names both the catalog and the name-to-price
mapping retain the last-seen row's values. -/
theorem c7_catalog_rows (sh : Sheet) (sIdx : ℕ) (cat : List CatEntry)
    (pm : List (String × ℚ)) (hs : summaryIdxOf sh = some sIdx)
    (h : parse_item_catalog sh = Except.ok (cat, pm)) :
    cat = dedupKeepLast
        ((takeUntilTotal (sh.rows.drop (sIdx + 1))).filterMap (entryOfRow sh)) ∧
    pm = cat.map (fun e => (e.item_name, e.unit_price)) ∧
    ∀ nm, cat.find? (fun e => e.item_name = nm) =
        ((takeUntilTotal (sh.rows.drop (sIdx + 1))).filterMap
          (entryOfRow sh)).reverse.find? (fun e => e.item_name = nm) ∧
      lookupQ pm nm =
        (((takeUntilTotal (sh.rows.drop (sIdx + 1))).filterMap
          (entryOfRow sh)).reverse.find? (fun e => e.item_name = nm)).map
            (fun e => e.unit_price) := by
  unfold parse_item_catalog at h
  by_cases h2 : sh.ncols < 2
  · rw [if_pos h2] at h
    cases h
  · rw [if_neg h2, hs] at h
    simp only [] at h
    cases hco : collectCat sh (sh.rows.drop (sIdx + 1)) with
    | error u =>
      rw [hco] at h
      cases h
    | ok entries =>
      rw [hco] at h
      simp only [] at h
      by_cases hne : entries = []
      · rw [if_pos hne] at h
        cases h
      · rw [if_neg hne] at h
        simp only [Except.ok.injEq, Prod.mk.injEq] at h
        obtain ⟨hcat, hpm⟩ := h
        have hent := collectCat_ok sh _ entries hco
        refine ⟨by rw [← hcat, hent], by rw [← hpm, hcat], ?_⟩
        intro nm
        constructor
        · rw [← hcat, ← hent]
          exact dedupKeepLast_find nm entries
        · rw [← hpm]
          unfold lookupQ
          rw [List.find?_map]
          have hpred : ((fun kv : String × ℚ => decide (kv.1 = nm)) ∘
              (fun e : CatEntry => (e.item_name, e.unit_price))) =
              (fun e : CatEntry => decide (e.item_name = nm)) := rfl
          rw [hpred, dedupKeepLast_find nm entries, ← hent]
          cases ((entries.reverse.find? fun e => e.item_name = nm)) <;> rfl

/-- Claim C7 witness at the duplicate-name sheet `shDup` (the name `A`
appears twice; the catalog and price map keep the later row, `A` at 3). -/
theorem c7_catalog_rows_witness :
    (summaryIdxOf shDup = some 2 ∧
     parse_item_catalog shDup = Except.ok
       ([⟨"B", 5, none, none⟩, ⟨"A", 3, none, none⟩],
        [("B", 5), ("A", 3)])) ∧
    (([⟨"B", 5, none, none⟩, ⟨"A", 3, none, none⟩] : List CatEntry) =
      dedupKeepLast
        ((takeUntilTotal (shDup.rows.drop (2 + 1))).filterMap (entryOfRow shDup)) ∧
     ([("B", 5), ("A", 3)] : List (String × ℚ)) =
      ([⟨"B", 5, none, none⟩, ⟨"A", 3, none, none⟩] : List CatEntry).map
        (fun e => (e.item_name, e.unit_price)) ∧
     ∀ nm, ([⟨"B", 5, none, none⟩, ⟨"A", 3, none, none⟩] : List CatEntry).find?
          (fun e => e.item_name = nm) =
        ((takeUntilTotal (shDup.rows.drop (2 + 1))).filterMap
          (entryOfRow shDup)).reverse.find? (fun e => e.item_name = nm) ∧
      lookupQ [("B", 5), ("A", 3)] nm =
        (((takeUntilTotal (shDup.rows.drop (2 + 1))).filterMap
          (entryOfRow shDup)).reverse.find? (fun e => e.item_name = nm)).map
            (fun e => e.unit_price)) :=
  ⟨⟨by decide, by decide⟩,
   c7_catalog_rows shDup 2 [⟨"B", 5, none, none⟩, ⟨"A", 3, none, none⟩]
     [("B", 5), ("A", 3)] (by decide) (by decide)⟩

theorem acceptsRow_shape (row : List Cell) (hacc : acceptsRowB row = true) :
    ∃ s q, rowCell row 0 = Cell.text s ∧ rowCell row 1 = Cell.num q := by
  cases hc0 : rowCell row 0 with
  | text s =>
    cases hc1 : rowCell row 1 with
    | num q => exact ⟨s, q, rfl, rfl⟩
    | text t => simp [acceptsRowB, hc0, hc1, isNumCell] at hacc
    | empty => simp [acceptsRowB, hc0, hc1, isNumCell] at hacc
  | num q => simp [acceptsRowB, hc0] at hacc
  | empty => simp [acceptsRowB, hc0] at hacc

theorem entryOfRow_none_iff (sh : Sheet) (row : List Cell) :
    entryOfRow sh row = none ↔ acceptsRowB row = false := by
  constructor
  · intro h
    cases hacc : acceptsRowB row with
    | false => rfl
    | true =>
      obtain ⟨s, q, hc0, hc1⟩ := acceptsRow_shape row hacc
      rw [entryOfRow_some sh row s q hc0 hc1 hacc] at h
      cases h
  · exact entryOfRow_none sh row

theorem parse_item_catalog_err (sh : Sheet) :
    isErr (parse_item_catalog sh) =
      (decide (sh.ncols < 2) || (summaryIdxOf sh).isNone ||
       (match summaryIdxOf sh with
        | none => false
        | some s =>
          (takeUntilTotal (sh.rows.drop (s + 1))).any (crashRowB sh) ||
          (takeUntilTotal (sh.rows.drop (s + 1))).all (fun r => !(acceptsRowB r)))) := by
  unfold parse_item_catalog
  by_cases h2 : sh.ncols < 2
  · rw [if_pos h2]
    simp [isErr, h2]
  · rw [if_neg h2]
    cases hs : summaryIdxOf sh with
    | none => simp [isErr, h2]
    | some s =>
      simp only [hs]
      have hcoerr := collectCat_err sh (sh.rows.drop (s + 1))
      cases hco : collectCat sh (sh.rows.drop (s + 1)) with
      | error u =>
        rw [hco] at hcoerr
        simp only [isErr] at hcoerr
        simp [isErr, h2, ← hcoerr]
      | ok entries =>
        rw [hco] at hcoerr
        simp only [isErr] at hcoerr
        have hent := collectCat_ok sh _ entries hco
        by_cases hne : entries = []
        · simp only []
          rw [if_pos hne]
          have hall : (takeUntilTotal (sh.rows.drop (s + 1))).all
              (fun r => !(acceptsRowB r)) = true := by
            rw [List.all_eq_true]
            intro r hr
            have : entryOfRow sh r = none := by
              have hmem : ∀ a ∈ takeUntilTotal (sh.rows.drop (s + 1)),
                  entryOfRow sh a = none := by
                rw [← List.filterMap_eq_nil_iff]
                rw [← hent]
                exact hne
              exact hmem r hr
            simp [(entryOfRow_none_iff sh r).mp this]
          simp [isErr, h2, ← hcoerr, hall]
        · simp only []
          rw [if_neg hne]
          have hall : (takeUntilTotal (sh.rows.drop (s + 1))).all
              (fun r => !(acceptsRowB r)) = false := by
            cases hallc : (takeUntilTotal (sh.rows.drop (s + 1))).all
                (fun r => !(acceptsRowB r)) with
            | false => rfl
            | true =>
              exfalso
              apply hne
              rw [hent, List.filterMap_eq_nil_iff]
              intro a ha
              have := List.all_eq_true.mp hallc a ha
              apply (entryOfRow_none_iff sh a).mpr
              cases hacc : acceptsRowB a
              · rfl
              · rw [hacc] at this
                cases this
          simp [isErr, h2, ← hcoerr, hall]

theorem isErr_assembleOutputs (cat : List CatEntry)
    (results : List (OrderRec × List ItemRec × List IssueRec)) :
    isErr (assembleOutputs cat results) =
      decide (results.flatMap (fun r => r.2.1) = []) := by
  unfold assembleOutputs
  by_cases h1 : results.map (fun r => r.1) = []
  · rw [if_pos h1]
    have : results = [] := List.map_eq_nil_iff.mp h1
    simp [this, isErr]
  · rw [if_neg h1]
    by_cases h2 : results.flatMap (fun r => r.2.1) = []
    · rw [if_pos h2]
      simp [h2, isErr]
    · rw [if_neg h2]
      simp [h2, isErr]

theorem processRows_flatMap_empty (pm : List (String × ℚ)) (gen : ℕ → String) :
    ∀ (rows : List (List Cell)) (n : ℕ),
      ((processRows pm gen n rows).flatMap (fun r => r.2.1) = []) ↔
        allRowsNoItems pm rows = true := by
  intro rows
  induction rows with
  | nil => intro n; simp [processRows, allRowsNoItems]
  | cons row rest ih =>
    intro n
    rw [processRows]
    have hstep : allRowsNoItems pm (row :: rest) =
        (decide ((parse_order_content defaultDeliveryPfxs
          (some (cellStr (rowCell row 2))) pm).2.1 = []) &&
         allRowsNoItems pm rest) := rfl
    rw [hstep]
    simp only [List.flatMap_cons, List.append_eq_nil, Bool.and_eq_true,
      decide_eq_true_eq]
    constructor
    · intro h
      exact ⟨(attachIds_eq_nil gen (gen n) (n + 1) _).mp h.1, (ih _).mp h.2⟩
    · intro h
      exact ⟨(attachIds_eq_nil gen (gen n) (n + 1) _).mpr h.1, (ih _).mpr h.2⟩

theorem isErr_assemble_allRows (cat : List CatEntry) (pm : List (String × ℚ))
    (gen : ℕ → String) (rows : List (List Cell)) (n : ℕ) :
    isErr (assembleOutputs cat (processRows pm gen n rows)) =
      allRowsNoItems pm rows := by
  rw [isErr_assembleOutputs]
  cases hA : allRowsNoItems pm rows with
  | true => simp [(processRows_flatMap_empty pm gen rows n).mpr hA]
  | false =>
    have hne : ¬((processRows pm gen n rows).flatMap (fun r => r.2.1) = []) := by
      intro hempty
      rw [(processRows_flatMap_empty pm gen rows n).mp hempty] at hA
      cases hA
    simp [hne]

/-- Claim C3, amended (further fatal cases exist): the import raises a
fatal error — producing no partial output, as the `Except` result carries
either an error or the full output — exactly when the summary marker is
absent, the orders header marker is absent, the sheet has fewer than 3
columns, a located summary is followed by zero valid catalog rows, some
accepted catalog row carries non-convertible text in its quantity/amount
column (`float` raises `ValueError`), or — with all of the above in
order — every qualifying order row (vacuously, when there is none) parses
to zero items, so that the checklist join raises `KeyError` on an empty
DataFrame.  A missing price or an unparseable segment never makes the whole
run fail, and a zero-item order does not either as long as some order of
the sheet contributes an item: under those conditions the import returns
the full output. -/
theorem c3_amended_fatal_iff (sh : Sheet) (gen : ℕ → String) :
    isErr (parse_orders_and_items sh gen) = amendedCondB sh := by
  have hcat := parse_item_catalog_err sh
  unfold parse_orders_and_items
  cases hc : parse_item_catalog sh with
  | error e =>
    rw [hc] at hcat
    simp only [isErr] at hcat
    have hcat2 := hcat.symm
    simp only []
    show true = amendedCondB sh
    cases hs : summaryIdxOf sh with
    | none =>
      simp [amendedCondB, claimCondB, hs]
    | some s =>
      rw [hs] at hcat2
      simp only [Option.isNone_some, Bool.or_eq_true, decide_eq_true_eq] at hcat2
      rcases hcat2 with (hlt | hfalse) | (hcrash | hall)
      · have : sh.ncols < 3 := by omega
        simp [amendedCondB, claimCondB, this]
      · cases hfalse
      · simp [amendedCondB, claimCondB, hs, hcrash]
      · simp [amendedCondB, claimCondB, hs, hall]
  | ok cp =>
    obtain ⟨cat, pm⟩ := cp
    rw [hc] at hcat
    simp only [isErr] at hcat
    have hcat2 := hcat.symm
    cases hs : summaryIdxOf sh with
    | none =>
      rw [hs] at hcat2
      simp at hcat2
    | some s =>
      rw [hs] at hcat2
      simp only [Option.isNone_some, Bool.or_eq_false_iff, decide_eq_false_iff_not] at hcat2
      obtain ⟨⟨hn2, _⟩, hcrash, hall⟩ := hcat2
      simp only []
      by_cases h3 : sh.ncols < 3
      · rw [if_pos h3]
        simp [isErr, amendedCondB, claimCondB, h3]
      · rw [if_neg h3]
        cases hh : headerIdxOf sh with
        | none =>
          simp [isErr, amendedCondB, claimCondB, h3, hh]
        | some hIdx =>
          simp [isErr, amendedCondB, claimCondB, h3, hh, hs, hcrash, hall]
          rw [hc]
          exact isErr_assemble_allRows cat pm gen (ordersSpanRows sh hIdx s) 0

/-- Claim C3 counterexample: three sheets with all markers, three columns
and a valid catalog row, so none of the claim's fatal conditions holds, yet
the import raises on each: on `shCrash` an accepted catalog row makes
`float("abc")` raise `ValueError`; on `shNoItems` the single order parses
to zero items and the checklist join's `merge` raises `KeyError` — so a
zero-item order can abort the import, contradicting the claim's second
half as well; on `shNoOrders` there is no qualifying order row and the
checklist join's column selection raises `KeyError`. -/
theorem c3_cex_unlisted_fatals :
    (isErr (parse_orders_and_items shCrash genA) = true ∧
     claimCondB shCrash = false) ∧
    (isErr (parse_orders_and_items shNoItems genA) = true ∧
     claimCondB shNoItems = false) ∧
    (isErr (parse_orders_and_items shNoOrders genA) = true ∧
     claimCondB shNoOrders = false) :=
  ⟨⟨by decide, by decide⟩, ⟨by decide, by decide⟩, ⟨by decide, by decide⟩⟩

/-! Identifier freshness and determinism of the rest (claim C8). -/

theorem attachIds_erase (gen1 gen2 : ℕ → String) (oid1 oid2 : String) :
    ∀ (items : List SegItem) (n1 n2 : ℕ),
      (attachIds gen1 oid1 n1 items).map eraseItem =
        (attachIds gen2 oid2 n2 items).map eraseItem := by
  intro items
  induction items with
  | nil => intro n1 n2; rfl
  | cons it its ih =>
    intro n1 n2
    simp only [attachIds, List.map_cons]
    rw [ih (n1 + 1) (n2 + 1)]
    rfl

theorem processOrderRow_erase (pm : List (String × ℚ)) (gen1 gen2 : ℕ → String)
    (n1 n2 : ℕ) (row : List Cell) :
    eraseOrder (processOrderRow pm gen1 n1 row).order =
      eraseOrder (processOrderRow pm gen2 n2 row).order ∧
    (processOrderRow pm gen1 n1 row).items.map eraseItem =
      (processOrderRow pm gen2 n2 row).items.map eraseItem ∧
    (processOrderRow pm gen1 n1 row).issues.map eraseIssue =
      (processOrderRow pm gen2 n2 row).issues.map eraseIssue := by
  refine ⟨rfl, ?_, ?_⟩
  · exact attachIds_erase gen1 gen2 _ _ _ (n1 + 1) (n2 + 1)
  · simp [processOrderRow, eraseIssue, List.map_map, List.map_append, apply_ite
      (List.map eraseIssue)]

theorem processRows_erase (pm : List (String × ℚ)) (gen1 gen2 : ℕ → String) :
    ∀ (rows : List (List Cell)) (n1 n2 : ℕ),
      (processRows pm gen1 n1 rows).map
        (fun r => (eraseOrder r.1, r.2.1.map eraseItem, r.2.2.map eraseIssue)) =
      (processRows pm gen2 n2 rows).map
        (fun r => (eraseOrder r.1, r.2.1.map eraseItem, r.2.2.map eraseIssue)) := by
  intro rows
  induction rows with
  | nil => intro n1 n2; rfl
  | cons row rest ih =>
    intro n1 n2
    simp only [processRows, List.map_cons]
    obtain ⟨he1, he2, he3⟩ := processOrderRow_erase pm gen1 gen2 n1 n2 row
    rw [he1, he2, he3, ih _ _]

theorem attachIds_ids (gen : ℕ → String) (oid : String) :
    ∀ (items : List SegItem) (n : ℕ) it, it ∈ attachIds gen oid n items →
      ∃ k, it.itemId = gen k := by
  intro items
  induction items with
  | nil => intro n it hit; simp [attachIds] at hit
  | cons si sis ih =>
    intro n it hit
    rw [attachIds] at hit
    rcases List.mem_cons.mp hit with h | h
    · exact ⟨n, by rw [h]⟩
    · exact ih (n + 1) it h

theorem processRows_ids (pm : List (String × ℚ)) (gen : ℕ → String) :
    ∀ (rows : List (List Cell)) (n : ℕ) r, r ∈ processRows pm gen n rows →
      (∃ k, r.1.orderId = gen k) ∧ (∀ it ∈ r.2.1, ∃ k, it.itemId = gen k) := by
  intro rows
  induction rows with
  | nil => intro n r hr; simp [processRows] at hr
  | cons row rest ih =>
    intro n r hr
    rw [processRows] at hr
    rcases List.mem_cons.mp hr with h | h
    · constructor
      · exact ⟨n, by rw [h]; rfl⟩
      · intro it hit
        rw [h] at hit
        exact attachIds_ids gen _ _ _ it hit
    · exact ih _ r h

/-- Claim C8 (confirmed, with `uuid4` modelled as an identifier supply whose
two runs return disjoint fresh strings): running the import twice on the same
sheet yields disjoint order-identifier and item-identifier sets, while every
other field of the orders, items, issues and catalog — including their
order — is equal across the two runs. -/
theorem c8_two_runs (sh : Sheet) (gen1 gen2 : ℕ → String) (o1 o2 : ParseOut)
    (h1 : parse_orders_and_items sh gen1 = Except.ok o1)
    (h2 : parse_orders_and_items sh gen2 = Except.ok o2)
    (hg : ∀ n m, gen1 n ≠ gen2 m) :
    (∀ a ∈ o1.orders.map (fun o => o.orderId),
      a ∉ o2.orders.map (fun o => o.orderId)) ∧
    (∀ a ∈ o1.items.map (fun it => it.itemId),
      a ∉ o2.items.map (fun it => it.itemId)) ∧
    o1.orders.map eraseOrder = o2.orders.map eraseOrder ∧
    o1.items.map eraseItem = o2.items.map eraseItem ∧
    o1.issues.map eraseIssue = o2.issues.map eraseIssue ∧
    o1.catalog = o2.catalog := by
  obtain ⟨cat, pm, hIdx, sIdx, hc1, hh1, hs1, hrow1, ho1, hi1, hiss1, hcat1⟩ :=
    parse_ok_decomp sh gen1 o1 h1
  obtain ⟨cat2, pm2, hIdx2, sIdx2, hc2, hh2, hs2, hrow2, ho2, hi2, hiss2, hcat2⟩ :=
    parse_ok_decomp sh gen2 o2 h2
  rw [hc1] at hc2
  injection hc2 with hc2'
  injection hc2' with hcc hcp
  rw [hh1] at hh2
  injection hh2 with hhh
  rw [hs1] at hs2
  injection hs2 with hss
  subst hcc
  subst hcp
  subst hhh
  subst hss
  have herase := processRows_erase pm gen1 gen2 (ordersSpanRows sh hIdx sIdx) 0 0
  refine ⟨?_, ?_, ?_, ?_, ?_, ?_⟩
  · intro a ha1 ha2
    rcases List.mem_map.mp ha1 with ⟨ord1, hord1, hid1⟩
    rcases List.mem_map.mp ha2 with ⟨ord2, hord2, hid2⟩
    rw [ho1, hrow1] at hord1
    rw [ho2, hrow2] at hord2
    rcases List.mem_map.mp hord1 with ⟨r1, hr1, hr1'⟩
    rcases List.mem_map.mp hord2 with ⟨r2, hr2, hr2'⟩
    obtain ⟨⟨k1, hk1⟩, _⟩ := processRows_ids pm gen1 _ 0 r1 hr1
    obtain ⟨⟨k2, hk2⟩, _⟩ := processRows_ids pm gen2 _ 0 r2 hr2
    apply hg k1 k2
    rw [← hk1, ← hk2, hr1', hr2', hid1, hid2]
  · intro a ha1 ha2
    rcases List.mem_map.mp ha1 with ⟨it1, hit1, hid1⟩
    rcases List.mem_map.mp ha2 with ⟨it2, hit2, hid2⟩
    rw [hi1, hrow1] at hit1
    rw [hi2, hrow2] at hit2
    rcases List.mem_flatMap.mp hit1 with ⟨r1, hr1, hitr1⟩
    rcases List.mem_flatMap.mp hit2 with ⟨r2, hr2, hitr2⟩
    obtain ⟨_, hia1⟩ := processRows_ids pm gen1 _ 0 r1 hr1
    obtain ⟨_, hia2⟩ := processRows_ids pm gen2 _ 0 r2 hr2
    obtain ⟨k1, hk1⟩ := hia1 it1 hitr1
    obtain ⟨k2, hk2⟩ := hia2 it2 hitr2
    apply hg k1 k2
    rw [← hk1, ← hk2, hid1, hid2]
  · rw [ho1, ho2, hrow1, hrow2]
    have := congrArg (List.map (fun t : (String × Option ℚ × Bool × Bool × Bool) ×
      List (String × ℤ × Option ℚ × Bool) × List (String × String × String) => t.1)) herase
    simpa [List.map_map, Function.comp] using this
  · rw [hi1, hi2, hrow1, hrow2]
    have := congrArg (List.map (fun t : (String × Option ℚ × Bool × Bool × Bool) ×
      List (String × ℤ × Option ℚ × Bool) × List (String × String × String) => t.2.1)) herase
    simp only [List.map_map, Function.comp] at this
    have hflat := congrArg List.flatten
      (show (processRows pm gen1 0 (ordersSpanRows sh hIdx sIdx)).map
          (fun r => r.2.1.map eraseItem) =
        (processRows pm gen2 0 (ordersSpanRows sh hIdx sIdx)).map
          (fun r => r.2.1.map eraseItem) from this)
    rw [List.map_flatMap, List.map_flatMap]
    exact hflat
  · rw [hiss1, hiss2, hrow1, hrow2]
    have := congrArg (List.map (fun t : (String × Option ℚ × Bool × Bool × Bool) ×
      List (String × ℤ × Option ℚ × Bool) × List (String × String × String) => t.2.2)) herase
    simp only [List.map_map, Function.comp] at this
    have hflat := congrArg List.flatten
      (show (processRows pm gen1 0 (ordersSpanRows sh hIdx sIdx)).map
          (fun r => r.2.2.map eraseIssue) =
        (processRows pm gen2 0 (ordersSpanRows sh hIdx sIdx)).map
          (fun r => r.2.2.map eraseIssue) from this)
    rw [List.map_flatMap, List.map_flatMap]
    exact hflat
  · rw [hcat1, hcat2]

theorem genA_ne_genB (n m : ℕ) : genA n ≠ genB m := by
  intro h
  have hd : (genA n).data = (genB m).data := congrArg String.data h
  have ha : (genA n).data = 'a' :: (Nat.repr n).data := rfl
  have hb : (genB m).data = 'b' :: (Nat.repr m).data := rfl
  rw [ha, hb] at hd
  injection hd with hd1 _
  cases hd1

/-- Claim C8 witness: two imports of `shGood` under the disjoint supplies
`genA` and `genB`. -/
theorem c8_two_runs_witness :
    (parse_orders_and_items shGood genA = Except.ok outGoodA ∧
     parse_orders_and_items shGood genB = Except.ok outGoodB ∧
     ∀ n m, genA n ≠ genB m) ∧
    ((∀ a ∈ outGoodA.orders.map (fun o => o.orderId),
        a ∉ outGoodB.orders.map (fun o => o.orderId)) ∧
     (∀ a ∈ outGoodA.items.map (fun it => it.itemId),
        a ∉ outGoodB.items.map (fun it => it.itemId)) ∧
     outGoodA.orders.map eraseOrder = outGoodB.orders.map eraseOrder ∧
     outGoodA.items.map eraseItem = outGoodB.items.map eraseItem ∧
     outGoodA.issues.map eraseIssue = outGoodB.issues.map eraseIssue ∧
     outGoodA.catalog = outGoodB.catalog) :=
  ⟨⟨by with_unfolding_all rfl, by with_unfolding_all rfl, genA_ne_genB⟩,
   c8_two_runs shGood genA genB outGoodA outGoodB (by with_unfolding_all rfl)
     (by with_unfolding_all rfl) genA_ne_genB⟩

end HaoOrder
